import Mathlib

/-!
Verification development for `get_social_insight_data.py`.

The program is shallowly embedded as follows.

* Python `str` values are modelled as `List Char` (a Python string is a
  sequence of code points; Python string comparison `<` is lexicographic on
  code points, which is exactly `List.lt` on `Char`).
* Python dicts are modelled as insertion-ordered association lists; an
  update `d[k] = v` replaces the value at an existing key in place and
  appends a new key at the end (`setA`), and a read `d[k]` is `lookA`.
* Python exceptions are modelled by the inductive `PyErr`; functions that
  can raise return the partially-updated state together with
  `Option PyErr` (or `Except`-like shapes) instead of raising.
* The filesystem of cache artifacts is an association list from paths to
  the list of written lines (each line without its trailing newline).
* Browser collaborators are abstracted at their interface boundary:
  keyword resolution receives the list of `(text, href)` anchors of the
  listing page, and one remote fetch receives the list of chart CSV blobs
  (`none` models a chart whose `getCSV` returned null).
-/

namespace SID

/-- A Python string: the list of its characters (code points). -/
abbrev PyStr := List Char

/-- Characters removed by Python `str.strip()` (the ASCII whitespace that
can occur in the data handled here). -/
def isSpaceC (c : Char) : Bool :=
  c = ' ' || c = '\t' || c = '\n' || c = '\r'

/-- Python `line.strip()`: remove whitespace from both ends. -/
def pyStrip (l : PyStr) : PyStr :=
  ((l.dropWhile isSpaceC).reverse.dropWhile isSpaceC).reverse

/-- Python `s.split(",")`: split on every comma; `"".split(",") = [""]`. -/
def splitComma : PyStr → List PyStr
  | [] => [[]]
  | c :: rest =>
    if c = ',' then [] :: splitComma rest
    else
      match splitComma rest with
      | [] => [[c]]
      | h :: t => (c :: h) :: t

/-- The Python exceptions that the modelled code can raise. -/
inductive PyErr where
  /-- `FileNotFoundError` from `open(path)` on a missing file. -/
  | fileNotFound (path : PyStr)
  /-- `ValueError`, e.g. from tuple unpacking of a wrong-length list or a
  failed `int(...)` / `strptime` parse. -/
  | valueError
  /-- `KeyError` from reading a missing dict key. -/
  | keyError
  /-- `IndexError` from reading a missing list index. -/
  | indexError
deriving DecidableEq

/-- One period of the series: the dict `timestamp -> value`
(insertion-ordered association list). -/
abbrev Period := List (PyStr × PyStr)

/-- The `_data` attribute: the dict `period index -> Period`. -/
abbrev Data := List (Nat × Period)

/-- Dict read `d[k]`: the value at the first occurrence of `k`. -/
def lookA {κ α : Type} [DecidableEq κ] : List (κ × α) → κ → Option α
  | [], _ => none
  | kv :: rest, k => if kv.1 = k then some kv.2 else lookA rest k

/-- The keys of an association list, in order. -/
def keysOf {κ α : Type} (l : List (κ × α)) : List κ := l.map Prod.fst

/-- Dict update `d[k] = v`: replace the value at an existing key in place,
otherwise append the new key at the end (Python dict insertion order). -/
def setA {κ α : Type} [DecidableEq κ] (l : List (κ × α)) (k : κ) (a : α) :
    List (κ × α) :=
  if k ∈ keysOf l then
    l.map (fun kv => if kv.1 = k then (k, a) else kv)
  else l ++ [(k, a)]

theorem keysOf_nil {κ α : Type} : keysOf ([] : List (κ × α)) = [] := rfl

theorem keysOf_cons {κ α : Type} (kv : κ × α) (l : List (κ × α)) :
    keysOf (kv :: l) = kv.1 :: keysOf l := rfl

theorem keysOf_append {κ α : Type} (l₁ l₂ : List (κ × α)) :
    keysOf (l₁ ++ l₂) = keysOf l₁ ++ keysOf l₂ := by
  simp [keysOf]

theorem mem_keysOf_of_mem {κ α : Type} {kv : κ × α} {l : List (κ × α)}
    (h : kv ∈ l) : kv.1 ∈ keysOf l := List.mem_map_of_mem Prod.fst h

/-- The `SocialInsightData` series state: attributes `_data`,
`_num_period` and `_max_period`. -/
structure Store where
  data : Data
  num_period : Nat
  max_period : Nat
deriving DecidableEq

/-- The pure parsing part of `add_data_from_csv`: the `(timestamp, value)`
pairs extracted from the lines of one artifact, in file order, together
with `true` when no line raises. A stripped line is parsed iff its first
two characters are `"20"`; a parsed line is split on commas and must give
exactly two fields, otherwise the 2-tuple unpacking raises `ValueError`
and parsing stops (the pairs before the bad line are kept, since the
source inserts line by line). -/
def parseRecord : List PyStr → List (PyStr × PyStr) × Bool
  | [] => ([], true)
  | line :: rest =>
    if (pyStrip line).take 2 = "20".toList then
      match splitComma (pyStrip line) with
      | [t, v] => ((t, v) :: (parseRecord rest).1, (parseRecord rest).2)
      | _ => ([], false)
    else parseRecord rest

/-- The line loop of `add_data_from_csv`: for each line, strip it, skip it
unless it starts with `"20"`, split it on commas into exactly two fields
(`ValueError` otherwise), and execute `_data[0][t] = data`
(`KeyError` when `_data` has no key `0`). Returns the updated `_data`
and the exception, if one was raised. -/
def processLines : Data → List PyStr → Data × Option PyErr
  | dta, [] => (dta, none)
  | dta, line :: rest =>
    if (pyStrip line).take 2 = "20".toList then
      match splitComma (pyStrip line) with
      | [t, v] =>
        match lookA dta 0 with
        | some p => processLines (setA dta 0 (setA p t v)) rest
        | none => (dta, some PyErr.keyError)
      | _ => (dta, some PyErr.valueError)
    else processLines dta rest

/-- The head of `add_data_from_csv`: `if not self._data:` create period 0
and set `_num_period = 1`. -/
def createIfEmpty (s : Store) : Store :=
  if s.data.isEmpty then
    { s with data := [(0, ([] : Period))], num_period := 1 }
  else s

/-- `add_data_from_csv` applied to the lines read from the artifact:
create period 0 when `_data` is empty, then run the line loop. -/
def add_data_from_csv_lines (s : Store) (lines : List PyStr) :
    Store × Option PyErr :=
  let s1 := createIfEmpty s
  match processLines s1.data lines with
  | (d, e) => ({ s1 with data := d }, e)

/-! ### Association list lemmas -/

theorem lookA_eq_none {κ α : Type} [DecidableEq κ] {l : List (κ × α)} {k : κ}
    (h : k ∉ keysOf l) : lookA l k = none := by
  induction l with
  | nil => rfl
  | cons kv rest ih =>
    rw [keysOf_cons] at h
    have h1 : k ≠ kv.1 ∧ k ∉ keysOf rest := by
      simpa [List.mem_cons, not_or] using h
    simp only [lookA, if_neg (fun hh : kv.1 = k => h1.1 hh.symm)]
    exact ih h1.2

theorem lookA_append_of_none {κ α : Type} [DecidableEq κ]
    {l₁ : List (κ × α)} (l₂ : List (κ × α)) {k : κ} (h : lookA l₁ k = none) :
    lookA (l₁ ++ l₂) k = lookA l₂ k := by
  induction l₁ with
  | nil => rfl
  | cons kv rest ih =>
    simp only [lookA] at h ⊢
    by_cases hk : kv.1 = k
    · simp [hk] at h
    · simpa [hk] using ih (by simpa [hk] using h)

theorem lookA_map_set {κ α : Type} [DecidableEq κ]
    (l : List (κ × α)) (k : κ) (a : α) (h : k ∈ keysOf l) :
    lookA (l.map (fun kv => if kv.1 = k then (k, a) else kv)) k = some a := by
  induction l with
  | nil => rw [keysOf_nil] at h; simp at h
  | cons kv rest ih =>
    by_cases hk : kv.1 = k
    · simp [lookA, hk]
    · have h' : k ∈ keysOf rest := by
        rw [keysOf_cons] at h
        rcases List.mem_cons.mp h with h | h
        · exact absurd h.symm hk
        · exact h
      simpa [lookA, hk] using ih h'

theorem lookA_setA {κ α : Type} [DecidableEq κ]
    (l : List (κ × α)) (k : κ) (a : α) : lookA (setA l k a) k = some a := by
  unfold setA
  by_cases h : k ∈ keysOf l
  · rw [if_pos h]; exact lookA_map_set l k a h
  · rw [if_neg h, lookA_append_of_none _ (lookA_eq_none h)]
    simp [lookA]

theorem keysOf_map_set {κ α : Type} [DecidableEq κ]
    (l : List (κ × α)) (k : κ) (a : α) :
    keysOf (l.map (fun kv => if kv.1 = k then (k, a) else kv)) = keysOf l := by
  simp only [keysOf, List.map_map]
  refine List.map_congr_left fun kv _ => ?_
  by_cases hk : kv.1 = k
  · simp [Function.comp, hk]
  · simp [Function.comp, hk]

theorem keysOf_setA_mem {κ α : Type} [DecidableEq κ]
    {l : List (κ × α)} {k : κ} (a : α) (h : k ∈ keysOf l) :
    keysOf (setA l k a) = keysOf l := by
  unfold setA
  rw [if_pos h]
  exact keysOf_map_set l k a

theorem keysOf_setA_not_mem {κ α : Type} [DecidableEq κ]
    {l : List (κ × α)} {k : κ} (a : α) (h : k ∉ keysOf l) :
    keysOf (setA l k a) = keysOf l ++ [k] := by
  unfold setA
  rw [if_neg h, keysOf_append]
  rfl

theorem setA_of_mem {κ α : Type} [DecidableEq κ]
    {l : List (κ × α)} {k : κ} (h : k ∈ keysOf l) (a : α) :
    setA l k a = l.map (fun kv => if kv.1 = k then (k, a) else kv) := by
  unfold setA; rw [if_pos h]

theorem setA_of_not_mem {κ α : Type} [DecidableEq κ]
    {l : List (κ × α)} {k : κ} (h : k ∉ keysOf l) (a : α) :
    setA l k a = l ++ [(k, a)] := by
  unfold setA; rw [if_neg h]

theorem setA_setA {κ α : Type} [DecidableEq κ]
    (l : List (κ × α)) (k : κ) (a b : α) :
    setA (setA l k a) k b = setA l k b := by
  by_cases h : k ∈ keysOf l
  · have h1 : k ∈ keysOf (setA l k a) := by rw [keysOf_setA_mem a h]; exact h
    rw [setA_of_mem h a, setA_of_mem (by rwa [← setA_of_mem h a]) b,
      setA_of_mem h b, List.map_map]
    refine List.map_congr_left fun kv _ => ?_
    by_cases hk : kv.1 = k
    · simp [Function.comp, hk]
    · simp [Function.comp, hk]
  · have h1 : k ∈ keysOf (setA l k a) := by
      rw [keysOf_setA_not_mem a h]; simp
    rw [setA_of_not_mem h a, setA_of_mem (by rwa [← setA_of_not_mem h a]) b,
      setA_of_not_mem h b, List.map_append]
    have hid : l.map (fun kv => if kv.1 = k then (k, b) else kv) = l := by
      refine (List.map_congr_left fun kv hkv => ?_).trans (List.map_id l)
      have hne : kv.1 ≠ k := fun hk => h (hk ▸ mem_keysOf_of_mem hkv)
      simp [hne]
    rw [hid]
    simp

theorem setA_ne_nil {κ α : Type} [DecidableEq κ]
    (l : List (κ × α)) (k : κ) (a : α) : setA l k a ≠ [] := by
  unfold setA
  by_cases h : k ∈ keysOf l
  · rw [if_pos h]
    rcases l with _ | ⟨kv, rest⟩
    · rw [keysOf_nil] at h; simp at h
    · simp
  · rw [if_neg h]; simp

/-! ### The overwrite law for a sequence of dict updates -/

/-- Fold a list of `(timestamp, value)` pairs into a period, left to
right, by dict update. -/
def applyPairs (p : Period) (ps : List (PyStr × PyStr)) : Period :=
  ps.foldl (fun q tv => setA q tv.1 tv.2) p

/-- The value key `t` holds after the updates `ps` run over a dict in
which it currently holds `w`. -/
def finalVal : List (PyStr × PyStr) → PyStr → PyStr → PyStr
  | [], _, w => w
  | ab :: rest, t, w => finalVal rest t (if ab.1 = t then ab.2 else w)

/-- The keys of `ps` that are not in `seen`, in order of first
occurrence. -/
def newKeys : List PyStr → List (PyStr × PyStr) → List PyStr
  | _, [] => []
  | seen, ab :: rest =>
    if ab.1 ∈ seen then newKeys seen rest
    else ab.1 :: newKeys (seen ++ [ab.1]) rest

theorem finalVal_of_not_mem {ps : List (PyStr × PyStr)} {t : PyStr}
    (h : t ∉ keysOf ps) : ∀ w, finalVal ps t w = w := by
  induction ps with
  | nil => intro w; rfl
  | cons ab rest ih =>
    intro w
    rw [keysOf_cons] at h
    have h1 : t ≠ ab.1 ∧ t ∉ keysOf rest := by
      simpa [List.mem_cons, not_or] using h
    simp only [finalVal, if_neg (fun hh : ab.1 = t => h1.1 hh.symm)]
    exact ih h1.2 w

theorem finalVal_of_mem {ps : List (PyStr × PyStr)} {t : PyStr}
    (h : t ∈ keysOf ps) : ∀ w w', finalVal ps t w = finalVal ps t w' := by
  induction ps with
  | nil => rw [keysOf_nil] at h; simp at h
  | cons ab rest ih =>
    intro w w'
    by_cases hk : ab.1 = t
    · simp [finalVal, hk]
    · have h' : t ∈ keysOf rest := by
        rw [keysOf_cons] at h
        rcases List.mem_cons.mp h with h | h
        · exact absurd h.symm hk
        · exact h
      simp only [finalVal, if_neg hk]
      exact ih h' _ _

theorem finalVal_idem (ps : List (PyStr × PyStr)) (t : PyStr) (w : PyStr) :
    finalVal ps t (finalVal ps t w) = finalVal ps t w := by
  by_cases h : t ∈ keysOf ps
  · exact finalVal_of_mem h _ _
  · rw [finalVal_of_not_mem h, finalVal_of_not_mem h]

theorem newKeys_not_mem_seen :
    ∀ (ps : List (PyStr × PyStr)) (seen : List PyStr) (k : PyStr),
    k ∈ newKeys seen ps → k ∉ seen := by
  intro ps
  induction ps with
  | nil => intro seen k h; simp [newKeys] at h
  | cons ab rest ih =>
    intro seen k h
    by_cases hm : ab.1 ∈ seen
    · rw [newKeys, if_pos hm] at h
      exact ih seen k h
    · rw [newKeys, if_neg hm] at h
      rcases List.mem_cons.mp h with h | h
      · subst h; exact hm
      · intro hk
        exact ih (seen ++ [ab.1]) k h (List.mem_append.mpr (Or.inl hk))

theorem mem_seen_or_newKeys :
    ∀ (ps : List (PyStr × PyStr)) (seen : List PyStr) (k : PyStr),
    k ∈ keysOf ps → k ∈ seen ∨ k ∈ newKeys seen ps := by
  intro ps
  induction ps with
  | nil => intro seen k h; rw [keysOf_nil] at h; simp at h
  | cons ab rest ih =>
    intro seen k h
    rw [keysOf_cons] at h
    rcases List.mem_cons.mp h with h | h
    · subst h
      by_cases hm : ab.1 ∈ seen
      · exact Or.inl hm
      · rw [newKeys, if_neg hm]
        exact Or.inr (List.mem_cons_self _ _)
    · by_cases hm : ab.1 ∈ seen
      · rw [newKeys, if_pos hm]
        exact ih seen k h
      · rw [newKeys, if_neg hm]
        rcases ih (seen ++ [ab.1]) k h with h' | h'
        · rcases List.mem_append.mp h' with h'' | h''
          · exact Or.inl h''
          · exact Or.inr (by simp [List.mem_singleton.mp h''])
        · exact Or.inr (List.mem_cons_of_mem _ h')

theorem newKeys_eq_nil {ps : List (PyStr × PyStr)} {seen : List PyStr}
    (h : ∀ k ∈ keysOf ps, k ∈ seen) : newKeys seen ps = [] := by
  induction ps generalizing seen with
  | nil => rfl
  | cons ab rest ih =>
    have hm : ab.1 ∈ seen := h ab.1 (by rw [keysOf_cons]; exact List.mem_cons_self _ _)
    rw [newKeys, if_pos hm]
    exact ih fun k hk => h k (by rw [keysOf_cons]; exact List.mem_cons_of_mem _ hk)

/-- Characterization of a fold of dict updates: each existing key keeps
its position and gets the last value written to it, and keys new to the
dict are appended in order of first occurrence with their last values. -/
theorem applyPairs_eq (ps : List (PyStr × PyStr)) :
    ∀ p : Period,
    applyPairs p ps =
      p.map (fun kv => (kv.1, finalVal ps kv.1 kv.2)) ++
        (newKeys (keysOf p) ps).map (fun k => (k, finalVal ps k [])) := by
  induction ps with
  | nil =>
    intro p
    simp [applyPairs, finalVal, newKeys]
  | cons tv rest ih =>
    intro p
    rw [show applyPairs p (tv :: rest) = applyPairs (setA p tv.1 tv.2) rest from rfl,
      ih (setA p tv.1 tv.2)]
    by_cases hm : tv.1 ∈ keysOf p
    · rw [keysOf_setA_mem _ hm, setA_of_mem hm, List.map_map,
        show newKeys (keysOf p) (tv :: rest) = newKeys (keysOf p) rest from by
          rw [newKeys, if_pos hm]]
      congr 1
      · refine List.map_congr_left fun kv _ => ?_
        by_cases hk : kv.1 = tv.1
        · simp [Function.comp, hk, finalVal]
        · have hne : tv.1 ≠ kv.1 := fun hh => hk hh.symm
          simp [Function.comp, hk, finalVal, hne]
      · refine List.map_congr_left fun k hk => ?_
        have hne : tv.1 ≠ k := fun hh =>
          newKeys_not_mem_seen rest (keysOf p) k hk (hh ▸ hm)
        simp [finalVal, hne]
    · rw [keysOf_setA_not_mem _ hm, setA_of_not_mem hm, List.map_append,
        show newKeys (keysOf p) (tv :: rest) =
            tv.1 :: newKeys (keysOf p ++ [tv.1]) rest from by
          rw [newKeys, if_neg hm]]
      rw [List.append_assoc]
      congr 1
      · refine List.map_congr_left fun kv hkv => ?_
        have hne : tv.1 ≠ kv.1 := fun hh => hm (hh ▸ mem_keysOf_of_mem hkv)
        simp [finalVal, hne]
      · simp only [List.map_cons, List.map_nil, List.cons_append, List.nil_append]
        congr 1
        · simp [finalVal]
        · refine List.map_congr_left fun k hk => ?_
          have hnm := newKeys_not_mem_seen rest (keysOf p ++ [tv.1]) k hk
          have hne : tv.1 ≠ k := fun hh =>
            hnm (List.mem_append.mpr (Or.inr (by simp [hh])))
          simp [finalVal, hne]

theorem keysOf_reMap {α : Type} (p : List (PyStr × α)) (g : PyStr × α → α) :
    keysOf (p.map fun kv => (kv.1, g kv)) = keysOf p := by
  induction p with
  | nil => rfl
  | cons kv rest ih => rw [List.map_cons, keysOf_cons, keysOf_cons, ih]

theorem keysOf_pairMap {α : Type} (l : List PyStr) (f : PyStr → α) :
    keysOf (l.map fun k => (k, f k)) = l := by
  induction l with
  | nil => rfl
  | cons a rest ih => rw [List.map_cons, keysOf_cons, ih]

theorem keysOf_applyPairs (ps : List (PyStr × PyStr)) (p : Period) :
    keysOf (applyPairs p ps) = keysOf p ++ newKeys (keysOf p) ps := by
  rw [applyPairs_eq, keysOf_append]
  congr 1
  · exact keysOf_reMap p _
  · exact keysOf_pairMap _ _

theorem applyPairs_idem (p : Period) (ps : List (PyStr × PyStr)) :
    applyPairs (applyPairs p ps) ps = applyPairs p ps := by
  have hsub : ∀ k ∈ keysOf ps, k ∈ keysOf (applyPairs p ps) := by
    intro k hk
    rw [keysOf_applyPairs]
    exact List.mem_append.mpr (mem_seen_or_newKeys ps (keysOf p) k hk)
  rw [applyPairs_eq ps (applyPairs p ps), newKeys_eq_nil hsub]
  rw [applyPairs_eq ps p]
  simp only [List.map_nil, List.append_nil, List.map_append, List.map_map]
  congr 1
  · refine List.map_congr_left fun kv _ => ?_
    simp [Function.comp, finalVal_idem]
  · refine List.map_congr_left fun k _ => ?_
    simp [Function.comp, finalVal_idem]

/-! ### Characterization of the line loop -/

/-- The exception raised by the line loop when `_data` has no key `0`:
nothing when no line is a data row, `ValueError` when a bad split comes
first, `KeyError` as soon as a well-formed data row is reached. -/
def errOfLines (lines : List PyStr) : Option PyErr :=
  match parseRecord lines with
  | ([], true) => none
  | ([], false) => some PyErr.valueError
  | (_ :: _, _) => some PyErr.keyError

theorem processLines_char :
    ∀ (lines : List PyStr) (dta : Data) (p : Period), lookA dta 0 = some p →
    processLines dta lines =
      (if (parseRecord lines).1 = [] then dta
       else setA dta 0 (applyPairs p (parseRecord lines).1),
       if (parseRecord lines).2 then none else some PyErr.valueError) := by
  intro lines
  induction lines with
  | nil => intro dta p h; rfl
  | cons line rest ih =>
    intro dta p h
    by_cases hs : (pyStrip line).take 2 = "20".toList
    · rcases hsp : splitComma (pyStrip line) with _ | ⟨t, _ | ⟨v, _ | ⟨w, ws⟩⟩⟩
      · simp only [processLines, parseRecord, if_pos hs, hsp]; simp
      · simp only [processLines, parseRecord, if_pos hs, hsp]; simp
      · have hpr : parseRecord (line :: rest) =
            ((t, v) :: (parseRecord rest).1, (parseRecord rest).2) := by
          simp only [parseRecord, if_pos hs, hsp]
        have hstep : processLines dta (line :: rest) =
            processLines (setA dta 0 (setA p t v)) rest := by
          simp only [processLines, if_pos hs, hsp, h]
        rw [hstep, ih _ (setA p t v) (lookA_setA dta 0 (setA p t v)), hpr]
        rcases hq : (parseRecord rest).1 with _ | ⟨q, qs⟩
        · simp only [if_pos rfl, if_neg (List.cons_ne_nil _ _)]
          rfl
        · rw [if_neg (hq ▸ List.cons_ne_nil _ _), if_neg (List.cons_ne_nil _ _),
            setA_setA]
          rfl
      · simp only [processLines, parseRecord, if_pos hs, hsp]; simp
    · have hpr : parseRecord (line :: rest) = parseRecord rest := by
        simp only [parseRecord, if_neg hs]
      have hstep : processLines dta (line :: rest) = processLines dta rest := by
        simp only [processLines, if_neg hs]
      rw [hstep, ih _ p h, hpr]

theorem processLines_none :
    ∀ (lines : List PyStr) (dta : Data), lookA dta 0 = none →
    processLines dta lines = (dta, errOfLines lines) := by
  intro lines
  induction lines with
  | nil => intro dta h; rfl
  | cons line rest ih =>
    intro dta h
    by_cases hs : (pyStrip line).take 2 = "20".toList
    · rcases hsp : splitComma (pyStrip line) with _ | ⟨t, _ | ⟨v, _ | ⟨w, ws⟩⟩⟩
      · simp only [processLines, errOfLines, parseRecord, if_pos hs, hsp]
      · simp only [processLines, errOfLines, parseRecord, if_pos hs, hsp]
      · simp only [processLines, errOfLines, parseRecord, if_pos hs, hsp, h]
      · simp only [processLines, errOfLines, parseRecord, if_pos hs, hsp]
    · have hpr : errOfLines (line :: rest) = errOfLines rest := by
        simp only [errOfLines, parseRecord, if_neg hs]
      have hstep : processLines dta (line :: rest) = processLines dta rest := by
        simp only [processLines, if_neg hs]
      rw [hstep, ih _ h, hpr]

theorem createIfEmpty_of_ne {t : Store} (h : t.data ≠ []) :
    createIfEmpty t = t := by
  unfold createIfEmpty
  rw [if_neg (by simpa using h)]

theorem add_lines_char (s : Store) (lines : List PyStr) (p : Period)
    (h : lookA (createIfEmpty s).data 0 = some p) :
    add_data_from_csv_lines s lines =
      ({ createIfEmpty s with
          data := if (parseRecord lines).1 = [] then (createIfEmpty s).data
            else setA (createIfEmpty s).data 0 (applyPairs p (parseRecord lines).1) },
       if (parseRecord lines).2 then none else some PyErr.valueError) := by
  simp only [add_data_from_csv_lines]
  rw [processLines_char lines _ p h]

theorem add_lines_none (s : Store) (lines : List PyStr)
    (h : lookA (createIfEmpty s).data 0 = none) :
    add_data_from_csv_lines s lines = (createIfEmpty s, errOfLines lines) := by
  simp only [add_data_from_csv_lines]
  rw [processLines_none lines _ h]

theorem createIfEmpty_data_ne (s : Store) : (createIfEmpty s).data ≠ [] := by
  unfold createIfEmpty
  split
  · simp
  · next h => simpa using h

/-! ### Claims C3, C4, C5 -/

/-- Claim C3 is false on the code: the line `"2024-01-01"` passes the
leading-`"20"` check and splits on commas into one field, and processing
it raises `ValueError` (the 2-tuple unpacking of a 1-element list), not
no error. -/
theorem c3_counterexample :
    processLines [(0, [])] ["2024-01-01".toList] =
      ([(0, [])], some PyErr.valueError) := by
  rfl

/-- Claim C3 (amended): for every input line that passes the
leading-`"20"` check but does not split on commas into exactly two
fields, the row parser raises `ValueError` at that line, and processing
of the record stops there with the store part unchanged by that line. -/
theorem c3_bad_split_raises (line : PyStr) (rest : List PyStr) (dta : Data)
    (h20 : (pyStrip line).take 2 = "20".toList)
    (hsp : (splitComma (pyStrip line)).length ≠ 2) :
    processLines dta (line :: rest) = (dta, some PyErr.valueError) := by
  rcases hs : splitComma (pyStrip line) with _ | ⟨t, _ | ⟨v, _ | ⟨w, ws⟩⟩⟩
  · simp only [processLines, if_pos h20, hs]
  · simp only [processLines, if_pos h20, hs]
  · rw [hs] at hsp; simp at hsp
  · simp only [processLines, if_pos h20, hs]

/-- Witness for the amended claim C3 at the concrete line `"20,a,b"`
(two commas, three fields). -/
theorem c3_bad_split_raises_witness :
    processLines [] ["20,a,b".toList] = ([], some PyErr.valueError) :=
  c3_bad_split_raises "20,a,b".toList [] [] (by decide) (by decide)

/-- Claim C4: a (stripped) line is treated as a data row iff its first
two characters are the literal `"20"`; every other line (however short,
or empty) is skipped silently, leaving the run unchanged; the line
`"not-a-row"` yields no TimePoint; the line `"2024-01-01T05,42"` yields
exactly the TimePoint `("2024-01-01T05", "42")`. -/
theorem c4_row_filter :
    (∀ (line : PyStr) (rest : List PyStr) (dta : Data),
        (pyStrip line).take 2 ≠ "20".toList →
        processLines dta (line :: rest) = processLines dta rest)
  ∧ (∀ line : PyStr, (pyStrip line).take 2 ≠ "20".toList →
        parseRecord [line] = ([], true))
  ∧ (∀ line : PyStr, (pyStrip line).take 2 = "20".toList →
        (parseRecord [line]).1 ≠ [] ∨ (parseRecord [line]).2 = false)
  ∧ parseRecord ["not-a-row".toList] = ([], true)
  ∧ parseRecord ["2024-01-01T05,42".toList] =
      ([("2024-01-01T05".toList, "42".toList)], true) := by
  refine ⟨?_, ?_, ?_, by rfl, by rfl⟩
  · intro line rest dta h
    simp only [processLines, if_neg h]
  · intro line h
    simp only [parseRecord, if_neg h]
  · intro line h
    have h' : List.take 2 (pyStrip line) = ['2', '0'] := h
    rcases hs : splitComma (pyStrip line) with _ | ⟨t, _ | ⟨v, _ | ⟨w, ws⟩⟩⟩
    · right; simp [parseRecord, h', hs]
    · right; simp [parseRecord, h', hs]
    · left; simp [parseRecord, h', hs]
    · right; simp [parseRecord, h', hs]

/-- Witness for claim C4 at concrete lines: `"ab"` (skipped, record
unchanged and no error) and `"20cd"` (treated as a data row). -/
theorem c4_row_filter_witness :
    processLines [] ["ab".toList] = processLines [] []
  ∧ parseRecord ["ab".toList] = ([], true)
  ∧ ((parseRecord ["20cd".toList]).1 ≠ [] ∨
      (parseRecord ["20cd".toList]).2 = false) :=
  ⟨c4_row_filter.1 "ab".toList [] [] (by decide),
   c4_row_filter.2.1 "ab".toList (by decide),
   c4_row_filter.2.2.1 "20cd".toList (by decide)⟩

/-- Claim C5: merging keys every TimePoint into period 0 by timestamp
with last-write-wins overwrite; hence for every SeriesStore state and
every DailyRecord, parsing and merging the same record a second time
returns exactly the state (and exception) of the first merge: the
re-merge is idempotent. -/
theorem c5_remerge_idempotent (s : Store) (lines : List PyStr) :
    add_data_from_csv_lines (add_data_from_csv_lines s lines).1 lines =
      add_data_from_csv_lines s lines := by
  have hne : (createIfEmpty s).data ≠ [] := createIfEmpty_data_ne s
  have h2 : createIfEmpty (createIfEmpty s) = createIfEmpty s :=
    createIfEmpty_of_ne hne
  rcases hl : lookA (createIfEmpty s).data 0 with _ | p
  · rw [add_lines_none s lines hl]
    rw [add_lines_none (createIfEmpty s) lines (by rw [h2]; exact hl), h2]
  · rw [add_lines_char s lines p hl]
    by_cases hp : (parseRecord lines).1 = []
    · rw [if_pos hp]
      have hJ : ({ createIfEmpty s with data := (createIfEmpty s).data } : Store)
          = createIfEmpty s := rfl
      rw [hJ]
      rw [add_lines_char (createIfEmpty s) lines p (by rw [h2]; exact hl), h2,
        if_pos hp]
    · rw [if_neg hp]
      set P := applyPairs p (parseRecord lines).1 with hP
      set s2 : Store :=
        { createIfEmpty s with data := setA (createIfEmpty s).data 0 P } with hs2
      have hd2 : s2.data = setA (createIfEmpty s).data 0 P := rfl
      have hne2 : s2.data ≠ [] := by rw [hd2]; exact setA_ne_nil _ _ _
      have h22 : createIfEmpty s2 = s2 := createIfEmpty_of_ne hne2
      have hlook2 : lookA (createIfEmpty s2).data 0 = some P := by
        rw [h22, hd2]; exact lookA_setA _ _ _
      rw [add_lines_char s2 lines P hlook2, if_neg hp, h22]
      have hfix : setA s2.data 0 (applyPairs P (parseRecord lines).1) = s2.data := by
        rw [hd2, setA_setA, hP, applyPairs_idem]
      rw [hfix]

/-! ### The Gregorian calendar and `shift_date` -/

/-- Gregorian leap year, as `datetime` computes it. -/
def isLeap (y : Nat) : Bool :=
  (y % 4 == 0 && y % 100 != 0) || (y % 400 == 0)

/-- A calendar date. -/
structure Date where
  year : Nat
  month : Nat
  day : Nat
deriving DecidableEq

/-- Days in a month of the Gregorian calendar. -/
def daysInMonth (y m : Nat) : Nat :=
  if m = 2 then (if isLeap y then 29 else 28)
  else if m = 4 ∨ m = 6 ∨ m = 9 ∨ m = 11 then 30
  else 31

/-- A well-formed date of a `YYYY-MM-DD` string. Years are restricted to
1000..9999, the range in which `strftime("%Y")` is four digits on every
platform (so the string comparison the loop relies on is meaningful) and
`datetime` arithmetic cannot overflow past year 9999 inside the modelled
ranges. -/
def validDate (d : Date) : Prop :=
  1000 ≤ d.year ∧ d.year ≤ 9999 ∧ 1 ≤ d.month ∧ d.month ≤ 12 ∧
    1 ≤ d.day ∧ d.day ≤ daysInMonth d.year d.month

instance (d : Date) : Decidable (validDate d) := by
  unfold validDate; infer_instance

/-- `d + timedelta(days = 1)` on a valid date. -/
def nextDay (d : Date) : Date :=
  if d.day < daysInMonth d.year d.month then ⟨d.year, d.month, d.day + 1⟩
  else if d.month < 12 then ⟨d.year, d.month + 1, 1⟩
  else ⟨d.year + 1, 1, 1⟩

/-- `d + timedelta(days = n)`. -/
def addDays (d : Date) : Nat → Date
  | 0 => d
  | n + 1 => addDays (nextDay d) n

/-- Days before month `m` in a non-leap year. -/
def cumDays (m : Nat) : Nat :=
  match m with
  | 1 => 0 | 2 => 31 | 3 => 59 | 4 => 90 | 5 => 120 | 6 => 151
  | 7 => 181 | 8 => 212 | 9 => 243 | 10 => 273 | 11 => 304 | 12 => 334
  | _ => 365

/-- Days of year `y` before the first of month `m`. -/
def daysBeforeMonth (y m : Nat) : Nat :=
  cumDays m + (if 3 ≤ m ∧ isLeap y then 1 else 0)

/-- Days in years before year `y`. -/
def daysBeforeYear (y : Nat) : Nat :=
  365 * (y - 1) + (y - 1) / 4 + (y - 1) / 400 - (y - 1) / 100

/-- The (proleptic) ordinal of a date: dates are in calendar order iff
their ordinals are in order, and `nextDay` adds one. -/
def toOrdinal (d : Date) : Nat :=
  daysBeforeYear d.year + daysBeforeMonth d.year d.month + d.day

/-- The value `YYYYMMDD` of a date; lexicographic on (year, month, day). -/
def dateKey (d : Date) : Nat := d.year * 10000 + d.month * 100 + d.day

theorem validDate_mk {y m dy : Nat} :
    validDate ⟨y, m, dy⟩ ↔
      (1000 ≤ y ∧ y ≤ 9999 ∧ 1 ≤ m ∧ m ≤ 12 ∧ 1 ≤ dy ∧
        dy ≤ daysInMonth y m) := Iff.rfl

theorem toOrdinal_mk (y m dy : Nat) :
    toOrdinal ⟨y, m, dy⟩ = daysBeforeYear y + daysBeforeMonth y m + dy := rfl

theorem dateKey_mk (y m dy : Nat) :
    dateKey ⟨y, m, dy⟩ = y * 10000 + m * 100 + dy := rfl

theorem daysInMonth_pos (y m : Nat) : 1 ≤ daysInMonth y m := by
  unfold daysInMonth
  split_ifs <;> omega

theorem daysInMonth_le (y m : Nat) : daysInMonth y m ≤ 31 := by
  unfold daysInMonth
  split_ifs <;> omega

theorem daysInMonth_12 (y : Nat) : daysInMonth y 12 = 31 := by
  simp [daysInMonth]

theorem isLeap_iff (y : Nat) :
    isLeap y = true ↔ ((y % 4 = 0 ∧ ¬ y % 100 = 0) ∨ y % 400 = 0) := by
  simp [isLeap]

theorem daysBeforeMonth_succ (y m : Nat) (h1 : 1 ≤ m) (h2 : m ≤ 11) :
    daysBeforeMonth y (m + 1) = daysBeforeMonth y m + daysInMonth y m := by
  interval_cases m <;>
    cases hl : isLeap y <;>
      simp [daysBeforeMonth, cumDays, daysInMonth, hl]

theorem daysBeforeMonth_mono (y : Nat) {ma mb : Nat} (h1 : 1 ≤ ma)
    (h : ma ≤ mb) (h2 : mb ≤ 12) :
    daysBeforeMonth y ma ≤ daysBeforeMonth y mb := by
  induction mb with
  | zero => omega
  | succ n ihn =>
    by_cases he : ma = n + 1
    · rw [he]
    · have hlt : ma ≤ n := by omega
      have hmono : daysBeforeMonth y ma ≤ daysBeforeMonth y n :=
        ihn hlt (by omega)
      have hsucc := daysBeforeMonth_succ y n (by omega) (by omega)
      omega

set_option maxHeartbeats 1000000 in
theorem daysBeforeYear_succ (y : Nat) (h : 1 ≤ y) :
    daysBeforeYear (y + 1) =
      daysBeforeYear y + 365 + (if isLeap y then 1 else 0) := by
  unfold daysBeforeYear
  cases hl : isLeap y
  · have hl' : ¬ ((y % 4 = 0 ∧ ¬ y % 100 = 0) ∨ y % 400 = 0) := by
      rw [← isLeap_iff]; simp [hl]
    simp only [hl, Bool.false_eq_true, if_false, Nat.add_sub_cancel]
    omega
  · have hl' : (y % 4 = 0 ∧ ¬ y % 100 = 0) ∨ y % 400 = 0 := (isLeap_iff y).mp hl
    simp only [hl, if_true, Nat.add_sub_cancel]
    omega

theorem daysBeforeYear_mono : ∀ {ya yb : Nat}, 1 ≤ ya → ya ≤ yb →
    daysBeforeYear ya ≤ daysBeforeYear yb := by
  intro ya yb h1 h
  induction yb with
  | zero => omega
  | succ n ihn =>
    by_cases he : ya = n + 1
    · rw [he]
    · have hlt : ya ≤ n := by omega
      have h2 : daysBeforeYear ya ≤ daysBeforeYear n := ihn hlt
      have h3 := daysBeforeYear_succ n (le_trans h1 hlt)
      omega

theorem daysBeforeMonth_12 (y : Nat) :
    daysBeforeMonth y 12 = 334 + (if isLeap y then 1 else 0) := by
  cases hl : isLeap y <;> simp [daysBeforeMonth, cumDays, hl]

theorem daysBeforeMonth_1 (y : Nat) : daysBeforeMonth y 1 = 0 := by
  cases hl : isLeap y <;> simp [daysBeforeMonth, cumDays, hl]

theorem daysBeforeMonth_add_day_le (y m d : Nat) (h1 : 1 ≤ m) (h2 : m ≤ 12)
    (h3 : d ≤ daysInMonth y m) :
    daysBeforeMonth y m + d ≤ 365 + (if isLeap y then 1 else 0) := by
  have h12 := daysBeforeMonth_12 y
  by_cases hm : m ≤ 11
  · have hs := daysBeforeMonth_succ y m h1 hm
    have hmono : daysBeforeMonth y (m + 1) ≤ daysBeforeMonth y 12 :=
      daysBeforeMonth_mono y (by omega) (by omega) (by omega)
    omega
  · have hm12 : m = 12 := by omega
    subst hm12
    have hdim := daysInMonth_12 y
    omega

theorem toOrdinal_nextDay (d : Date) (h : validDate d) :
    toOrdinal (nextDay d) = toOrdinal d + 1 := by
  obtain ⟨y, m, dy⟩ := d
  rw [validDate_mk] at h
  obtain ⟨h1, h2, h3, h4, h5, h6⟩ := h
  unfold nextDay
  simp only
  by_cases hd : dy < daysInMonth y m
  · rw [if_pos hd, toOrdinal_mk, toOrdinal_mk]
    omega
  · rw [if_neg hd]
    have hdy : dy = daysInMonth y m := by omega
    by_cases hm : m < 12
    · rw [if_pos hm, toOrdinal_mk, toOrdinal_mk]
      have hsucc := daysBeforeMonth_succ y m h3 (by omega)
      omega
    · rw [if_neg hm]
      have hm12 : m = 12 := by omega
      subst hm12
      have hdy31 : dy = 31 := by rw [hdy, daysInMonth_12]
      subst hdy31
      rw [toOrdinal_mk, toOrdinal_mk, daysBeforeMonth_1,
        daysBeforeMonth_12, daysBeforeYear_succ y (by omega)]
      omega

theorem toOrdinal_lt_of_key_lt {a b : Date} (ha : validDate a)
    (hb : validDate b) (h : dateKey a < dateKey b) :
    toOrdinal a < toOrdinal b := by
  obtain ⟨ya, ma, da⟩ := a
  obtain ⟨yb, mb, db⟩ := b
  rw [validDate_mk] at ha hb
  obtain ⟨ha1, ha2, ha3, ha4, ha5, ha6⟩ := ha
  obtain ⟨hb1, hb2, hb3, hb4, hb5, hb6⟩ := hb
  have hda31 : da ≤ 31 := le_trans ha6 (daysInMonth_le _ _)
  have hdb31 : db ≤ 31 := le_trans hb6 (daysInMonth_le _ _)
  rw [dateKey_mk, dateKey_mk] at h
  rw [toOrdinal_mk, toOrdinal_mk]
  rcases Nat.lt_trichotomy ya yb with hy | hy | hy
  · have e1 : daysBeforeMonth ya ma + da ≤ 365 + (if isLeap ya then 1 else 0) :=
      daysBeforeMonth_add_day_le ya ma da ha3 ha4 ha6
    have e2 := daysBeforeYear_succ ya (by omega)
    have e3 : daysBeforeYear (ya + 1) ≤ daysBeforeYear yb :=
      daysBeforeYear_mono (by omega) (by omega)
    omega
  · subst hy
    rcases Nat.lt_trichotomy ma mb with hm | hm | hm
    · have e1 := daysBeforeMonth_succ ya ma ha3 (by omega)
      have e2 : daysBeforeMonth ya (ma + 1) ≤ daysBeforeMonth ya mb :=
        daysBeforeMonth_mono ya (by omega) (by omega) hb4
      omega
    · subst hm
      omega
    · omega
  · omega

theorem date_eq_of_key_eq {a b : Date} (ha : validDate a) (hb : validDate b)
    (h : dateKey a = dateKey b) : a = b := by
  obtain ⟨ya, ma, da⟩ := a
  obtain ⟨yb, mb, db⟩ := b
  rw [validDate_mk] at ha hb
  obtain ⟨ha1, ha2, ha3, ha4, ha5, ha6⟩ := ha
  obtain ⟨hb1, hb2, hb3, hb4, hb5, hb6⟩ := hb
  have hda31 : da ≤ 31 := le_trans ha6 (daysInMonth_le _ _)
  have hdb31 : db ≤ 31 := le_trans hb6 (daysInMonth_le _ _)
  rw [dateKey_mk, dateKey_mk] at h
  have hy : ya = yb := by omega
  have hm : ma = mb := by omega
  have hd : da = db := by omega
  rw [hy, hm, hd]

theorem key_lt_iff_ordinal_lt {a b : Date} (ha : validDate a)
    (hb : validDate b) :
    dateKey a < dateKey b ↔ toOrdinal a < toOrdinal b := by
  constructor
  · exact toOrdinal_lt_of_key_lt ha hb
  · intro h
    rcases Nat.lt_trichotomy (dateKey a) (dateKey b) with hk | hk | hk
    · exact hk
    · exact absurd (date_eq_of_key_eq ha hb hk ▸ h) (lt_irrefl _)
    · exact absurd (toOrdinal_lt_of_key_lt hb ha hk) (by omega)

theorem toOrdinal_inj {a b : Date} (ha : validDate a) (hb : validDate b)
    (h : toOrdinal a = toOrdinal b) : a = b := by
  rcases Nat.lt_trichotomy (dateKey a) (dateKey b) with hk | hk | hk
  · exact absurd (toOrdinal_lt_of_key_lt ha hb hk) (by omega)
  · exact date_eq_of_key_eq ha hb hk
  · exact absurd (toOrdinal_lt_of_key_lt hb ha hk) (by omega)

theorem validDate_nextDay {d : Date} (h : validDate d)
    (hne : d ≠ (⟨9999, 12, 31⟩ : Date)) : validDate (nextDay d) := by
  obtain ⟨y, m, dy⟩ := d
  rw [validDate_mk] at h
  obtain ⟨h1, h2, h3, h4, h5, h6⟩ := h
  unfold nextDay
  simp only
  by_cases hd : dy < daysInMonth y m
  · rw [if_pos hd, validDate_mk]
    exact ⟨h1, h2, h3, h4, by omega, by omega⟩
  · rw [if_neg hd]
    by_cases hm : m < 12
    · rw [if_pos hm, validDate_mk]
      exact ⟨h1, h2, by omega, by omega, le_refl 1, daysInMonth_pos _ _⟩
    · rw [if_neg hm, validDate_mk]
      have hm12 : m = 12 := by omega
      subst hm12
      have hdy31 : dy = 31 := by
        have := daysInMonth_12 y
        omega
      have hy : y ≠ 9999 := by
        intro hy
        exact hne (by rw [hy, hdy31])
      exact ⟨by omega, by omega, by omega, by omega, le_refl 1,
        daysInMonth_pos _ _⟩

theorem toOrdinal_le_max {d : Date} (h : validDate d) :
    toOrdinal d ≤ toOrdinal (⟨9999, 12, 31⟩ : Date) := by
  by_cases he : d = (⟨9999, 12, 31⟩ : Date)
  · rw [he]
  · have hk : dateKey d < dateKey (⟨9999, 12, 31⟩ : Date) := by
      obtain ⟨y, m, dy⟩ := d
      rw [validDate_mk] at h
      obtain ⟨h1, h2, h3, h4, h5, h6⟩ := h
      have hd31 : dy ≤ 31 := le_trans h6 (daysInMonth_le _ _)
      have hne : ¬ (y = 9999 ∧ m = 12 ∧ dy = 31) := by
        intro he'
        exact he (by rw [he'.1, he'.2.1, he'.2.2])
      rw [dateKey_mk, dateKey_mk]
      omega
    exact le_of_lt (toOrdinal_lt_of_key_lt h (by decide) hk)

theorem addDays_succ_eq (d : Date) (n : Nat) :
    addDays d (n + 1) = addDays (nextDay d) n := rfl

theorem addDays_ordinal :
    ∀ (n : Nat) (d : Date), validDate d →
    toOrdinal d + n ≤ toOrdinal (⟨9999, 12, 31⟩ : Date) →
    validDate (addDays d n) ∧ toOrdinal (addDays d n) = toOrdinal d + n := by
  intro n
  induction n with
  | zero => intro d h _; exact ⟨h, rfl⟩
  | succ k ih =>
    intro d h hb
    have hne : d ≠ (⟨9999, 12, 31⟩ : Date) := by
      intro he
      rw [he] at hb
      omega
    have hv := validDate_nextDay h hne
    have ho := toOrdinal_nextDay d h
    have hrec := ih (nextDay d) hv (by omega)
    refine ⟨by rw [addDays_succ_eq]; exact hrec.1, ?_⟩
    rw [addDays_succ_eq, hrec.2, ho]
    omega

theorem addDays_one (d : Date) : addDays d 1 = nextDay d := rfl

theorem addDays_succ_comm (d : Date) :
    ∀ n, addDays d (n + 1) = nextDay (addDays d n) := by
  have key : ∀ (n : Nat) (d : Date),
      addDays (nextDay d) n = nextDay (addDays d n) := by
    intro n
    induction n with
    | zero => intro d; rfl
    | succ k ih =>
      intro d
      rw [addDays_succ_eq, addDays_succ_eq, ih (nextDay d)]
  intro n
  rw [addDays_succ_eq, key n d]

/-! ### Date strings -/

/-- The character of a decimal digit. -/
def digitC (n : Nat) : Char := Char.ofNat (48 + n)

/-- The numeric value of a digit character. -/
def dVal (c : Char) : Nat := c.toNat - 48

/-- A number printed as four zero-padded decimal digits. -/
def fourDigits (n : Nat) : PyStr :=
  [digitC (n / 1000 % 10), digitC (n / 100 % 10), digitC (n / 10 % 10),
   digitC (n % 10)]

/-- A number printed as two zero-padded decimal digits. -/
def twoDigits (n : Nat) : PyStr :=
  [digitC (n / 10 % 10), digitC (n % 10)]

/-- `strftime("%Y-%m-%d")` for the four-digit years modelled here. -/
def formatDate (d : Date) : PyStr :=
  fourDigits d.year ++ '-' :: (twoDigits d.month ++ '-' :: twoDigits d.day)

/-- `strptime(s, "%Y-%m-%d")` restricted to four-digit years (the range
`validDate` covers); `none` models the `ValueError` of a failed parse
(`strptime` also validates month and day-of-month ranges). -/
def parseDate (s : PyStr) : Option Date :=
  match s with
  | [y1, y2, y3, y4, c1, m1, m2, c2, d1, d2] =>
    if c1 = '-' ∧ c2 = '-' ∧ y1.isDigit ∧ y2.isDigit ∧ y3.isDigit ∧
        y4.isDigit ∧ m1.isDigit ∧ m2.isDigit ∧ d1.isDigit ∧ d2.isDigit then
      if validDate ⟨dVal y1 * 1000 + dVal y2 * 100 + dVal y3 * 10 + dVal y4,
          dVal m1 * 10 + dVal m2, dVal d1 * 10 + dVal d2⟩ then
        some ⟨dVal y1 * 1000 + dVal y2 * 100 + dVal y3 * 10 + dVal y4,
          dVal m1 * 10 + dVal m2, dVal d1 * 10 + dVal d2⟩
      else none
    else none
  | _ => none

/-- `shift_date(date, shift)` (source lines 91..110): `strptime` the
date, add `timedelta(days = shift)`, `strftime` the result; `none`
models the `ValueError` of a failed parse. -/
def shift_date (date : PyStr) (shift : Nat) : Option PyStr :=
  (parseDate date).map (fun d => formatDate (addDays d shift))

theorem digitC_isDigit {n : Nat} (h : n ≤ 9) : (digitC n).isDigit = true := by
  interval_cases n <;> decide

theorem dVal_digitC {n : Nat} (h : n ≤ 9) : dVal (digitC n) = n := by
  interval_cases n <;> decide

theorem digitC_lt_iff {x y : Nat} (hx : x ≤ 9) (hy : y ≤ 9) :
    digitC x < digitC y ↔ x < y := by
  interval_cases x <;> interval_cases y <;> decide

theorem formatDate_mk (y m dy : Nat) :
    formatDate ⟨y, m, dy⟩ =
      [digitC (y / 1000 % 10), digitC (y / 100 % 10), digitC (y / 10 % 10),
       digitC (y % 10), '-', digitC (m / 10 % 10), digitC (m % 10), '-',
       digitC (dy / 10 % 10), digitC (dy % 10)] := rfl

theorem parseDate_formatDate {d : Date} (h : validDate d) :
    parseDate (formatDate d) = some d := by
  obtain ⟨y, m, dy⟩ := d
  have h' := h
  rw [validDate_mk] at h'
  obtain ⟨h1, h2, h3, h4, h5, h6⟩ := h'
  have hdy31 : dy ≤ 31 := le_trans h6 (daysInMonth_le _ _)
  rw [formatDate_mk]
  simp only [parseDate]
  have hy : dVal (digitC (y / 1000 % 10)) * 1000 + dVal (digitC (y / 100 % 10)) * 100 +
      dVal (digitC (y / 10 % 10)) * 10 + dVal (digitC (y % 10)) = y := by
    rw [dVal_digitC (by omega), dVal_digitC (by omega), dVal_digitC (by omega),
      dVal_digitC (by omega)]
    omega
  have hm : dVal (digitC (m / 10 % 10)) * 10 + dVal (digitC (m % 10)) = m := by
    rw [dVal_digitC (by omega), dVal_digitC (by omega)]
    omega
  have hd : dVal (digitC (dy / 10 % 10)) * 10 + dVal (digitC (dy % 10)) = dy := by
    rw [dVal_digitC (by omega), dVal_digitC (by omega)]
    omega
  rw [if_pos (by
    refine ⟨?_, ?_, ?_, ?_, ?_, ?_, ?_, ?_, ?_, ?_⟩ <;>
      first
        | trivial
        | exact digitC_isDigit (by omega))]
  rw [hy, hm, hd]
  rw [if_pos h]

theorem shift_date_format {d : Date} (h : validDate d) :
    shift_date (formatDate d) 1 = some (formatDate (nextDay d)) := by
  unfold shift_date
  rw [parseDate_formatDate h]
  rfl

/-! ### Python string comparison agrees with calendar order -/

theorem pystr_lt_of_lex {l1 l2 : PyStr} (h : List.Lex (· < ·) l1 l2) :
    l1 < l2 := h

theorem lex_digit_step {x y : Nat} {l1 l2 : List Char} (hx : x ≤ 9) (hy : y ≤ 9)
    (h : x < y ∨ (x = y ∧ List.Lex (· < ·) l1 l2)) :
    List.Lex (· < ·) (digitC x :: l1) (digitC y :: l2) := by
  rcases h with h | ⟨he, hl⟩
  · exact List.Lex.rel ((digitC_lt_iff hx hy).mpr h)
  · subst he
    exact List.Lex.cons hl

theorem formatDate_lt_of_key_lt {a b : Date} (ha : validDate a)
    (hb : validDate b) (h : dateKey a < dateKey b) :
    formatDate a < formatDate b := by
  obtain ⟨ya, ma, da⟩ := a
  obtain ⟨yb, mb, db⟩ := b
  rw [validDate_mk] at ha hb
  obtain ⟨ha1, ha2, ha3, ha4, ha5, ha6⟩ := ha
  obtain ⟨hb1, hb2, hb3, hb4, hb5, hb6⟩ := hb
  have hda : da ≤ 31 := le_trans ha6 (daysInMonth_le _ _)
  have hdb : db ≤ 31 := le_trans hb6 (daysInMonth_le _ _)
  rw [dateKey_mk, dateKey_mk] at h
  rw [formatDate_mk, formatDate_mk]
  refine pystr_lt_of_lex ?_
  refine lex_digit_step (by omega) (by omega) ?_
  rcases Nat.lt_trichotomy (ya / 1000 % 10) (yb / 1000 % 10) with h1 | h1 | h1
  · exact Or.inl h1
  · refine Or.inr ⟨h1, lex_digit_step (by omega) (by omega) ?_⟩
    rcases Nat.lt_trichotomy (ya / 100 % 10) (yb / 100 % 10) with h2 | h2 | h2
    · exact Or.inl h2
    · refine Or.inr ⟨h2, lex_digit_step (by omega) (by omega) ?_⟩
      rcases Nat.lt_trichotomy (ya / 10 % 10) (yb / 10 % 10) with h3 | h3 | h3
      · exact Or.inl h3
      · refine Or.inr ⟨h3, lex_digit_step (by omega) (by omega) ?_⟩
        rcases Nat.lt_trichotomy (ya % 10) (yb % 10) with h4 | h4 | h4
        · exact Or.inl h4
        · refine Or.inr ⟨h4, List.Lex.cons (lex_digit_step (by omega) (by omega) ?_)⟩
          rcases Nat.lt_trichotomy (ma / 10 % 10) (mb / 10 % 10) with h5 | h5 | h5
          · exact Or.inl h5
          · refine Or.inr ⟨h5, lex_digit_step (by omega) (by omega) ?_⟩
            rcases Nat.lt_trichotomy (ma % 10) (mb % 10) with h6 | h6 | h6
            · exact Or.inl h6
            · refine Or.inr ⟨h6, List.Lex.cons (lex_digit_step (by omega) (by omega) ?_)⟩
              rcases Nat.lt_trichotomy (da / 10 % 10) (db / 10 % 10) with h7 | h7 | h7
              · exact Or.inl h7
              · refine Or.inr ⟨h7, lex_digit_step (by omega) (by omega) ?_⟩
                rcases Nat.lt_trichotomy (da % 10) (db % 10) with h8 | h8 | h8
                · exact Or.inl h8
                · exfalso; omega
                · exfalso; omega
              · exfalso; omega
            · exfalso; omega
          · exfalso; omega
        · exfalso; omega
      · exfalso; omega
    · exfalso; omega
  · exfalso; omega

theorem formatDate_eq_of_key_eq {a b : Date} (ha : validDate a)
    (hb : validDate b) (h : dateKey a = dateKey b) :
    formatDate a = formatDate b := by
  rw [date_eq_of_key_eq ha hb h]

theorem formatDate_lt_iff {a b : Date} (ha : validDate a) (hb : validDate b) :
    formatDate a < formatDate b ↔ toOrdinal a < toOrdinal b := by
  constructor
  · intro h
    rcases Nat.lt_trichotomy (dateKey a) (dateKey b) with hk | hk | hk
    · exact (key_lt_iff_ordinal_lt ha hb).mp hk
    · exact absurd (formatDate_eq_of_key_eq ha hb hk ▸ h) (lt_irrefl _)
    · exact absurd (lt_trans h (formatDate_lt_of_key_lt hb ha hk))
        (lt_irrefl (formatDate a))
  · intro h
    exact formatDate_lt_of_key_lt ha hb ((key_lt_iff_ordinal_lt ha hb).mpr h)

theorem formatDate_inj {a b : Date} (ha : validDate a) (hb : validDate b)
    (h : formatDate a = formatDate b) : a = b := by
  rcases Nat.lt_trichotomy (dateKey a) (dateKey b) with hk | hk | hk
  · exact absurd (h ▸ formatDate_lt_of_key_lt ha hb hk) (lt_irrefl _)
  · exact date_eq_of_key_eq ha hb hk
  · exact absurd (h ▸ formatDate_lt_of_key_lt hb ha hk) (lt_irrefl _)

/-! ### Claim C6: the date-range loop -/

/-- The date loop of `get_Social_Insight_data` (source lines 161..171),
reduced to its iteration skeleton: `date = start_date; while
date < end_date: visit(date); date = shift_date(date, 1)`. The loop
condition is Python string comparison (lexicographic on code points).
`fuel` bounds the number of loop tests modelled; `none` means the loop
did not exit within `fuel` tests, or a `strptime` parse raised. -/
def loopVisits : Nat → PyStr → PyStr → Option (List PyStr)
  | 0, _, _ => none
  | fuel + 1, date, stop =>
    if date < stop then
      match shift_date date 1 with
      | some d2 => (loopVisits fuel d2 stop).map (fun l => date :: l)
      | none => none
    else some []

theorem loopVisits_succ (fuel : Nat) (date stop : PyStr) :
    loopVisits (fuel + 1) date stop =
      if date < stop then
        match shift_date date 1 with
        | some d2 => (loopVisits fuel d2 stop).map (fun l => date :: l)
        | none => none
      else some [] := rfl

theorem loopVisits_step (fuel : Nat) (date stop d2 : PyStr)
    (hc : date < stop) (hs : shift_date date 1 = some d2) :
    loopVisits (fuel + 1) date stop =
      (loopVisits fuel d2 stop).map (fun l => date :: l) := by
  rw [loopVisits_succ, if_pos hc, hs]

theorem loopVisits_exit (fuel : Nat) (date stop : PyStr)
    (hc : ¬ date < stop) : loopVisits (fuel + 1) date stop = some [] := by
  rw [loopVisits_succ, if_neg hc]

theorem loopVisits_ranges (ds de : Date) (h1 : validDate ds)
    (h2 : validDate de) (hle : toOrdinal ds ≤ toOrdinal de) :
    ∀ (n k : Nat), k + n = toOrdinal de - toOrdinal ds →
    loopVisits (n + 1) (formatDate (addDays ds k)) (formatDate de) =
      some ((List.range n).map (fun i => formatDate (addDays ds (k + i)))) := by
  have hmax : toOrdinal de ≤ toOrdinal (⟨9999, 12, 31⟩ : Date) :=
    toOrdinal_le_max h2
  intro n
  induction n with
  | zero =>
    intro k hk
    have hAD := addDays_ordinal k ds h1 (by omega)
    have heq : addDays ds k = de := toOrdinal_inj hAD.1 h2 (by omega)
    rw [heq, loopVisits_exit _ _ _ (lt_irrefl (formatDate de))]
    simp
  | succ nn ih =>
    intro k hk
    have hADk := addDays_ordinal k ds h1 (by omega)
    have hstr : formatDate (addDays ds k) < formatDate de :=
      (formatDate_lt_iff hADk.1 h2).mpr (by omega)
    have hsh : shift_date (formatDate (addDays ds k)) 1 =
        some (formatDate (nextDay (addDays ds k))) :=
      shift_date_format hADk.1
    have hnx : nextDay (addDays ds k) = addDays ds (k + 1) :=
      (addDays_succ_comm ds k).symm
    rw [hnx] at hsh
    rw [loopVisits_step _ _ _ _ hstr hsh, ih (k + 1) (by omega)]
    simp only [Option.map_some']
    congr 1
    rw [List.range_succ_eq_map]
    simp only [List.map_cons, List.map_map, Nat.add_zero]
    congr 1
    refine List.map_congr_left fun i _ => ?_
    simp only [Function.comp_apply]
    rw [show k + 1 + i = k + (i + 1) from by omega]

/-- Claim C6: for well-formed `start_date <= end_date`, the acquisition
loop visits exactly the dates of `[start_date, end_date)` in ascending
(string) order, each successive date obtained by adding exactly one
calendar day to the previous; the loop terminates within
`end - start + 1` tests of the condition, running zero iterations when
the two dates coincide. Membership: a well-formed date string is visited
iff its date lies in the half-open interval. -/
theorem c6_loop_dates (ds de : Date) (h1 : validDate ds) (h2 : validDate de)
    (hle : toOrdinal ds ≤ toOrdinal de) :
    loopVisits (toOrdinal de - toOrdinal ds + 1) (formatDate ds)
        (formatDate de)
      = some ((List.range (toOrdinal de - toOrdinal ds)).map
          (fun i => formatDate (addDays ds i)))
  ∧ List.Pairwise (· < ·)
      ((List.range (toOrdinal de - toOrdinal ds)).map
        (fun i => formatDate (addDays ds i)))
  ∧ (∀ d' : Date, validDate d' →
      (formatDate d' ∈ (List.range (toOrdinal de - toOrdinal ds)).map
          (fun i => formatDate (addDays ds i)) ↔
        toOrdinal ds ≤ toOrdinal d' ∧ toOrdinal d' < toOrdinal de)) := by
  have hmax : toOrdinal de ≤ toOrdinal (⟨9999, 12, 31⟩ : Date) :=
    toOrdinal_le_max h2
  have hvalid : ∀ i, i < toOrdinal de - toOrdinal ds →
      validDate (addDays ds i) ∧ toOrdinal (addDays ds i) = toOrdinal ds + i :=
    fun i hi => addDays_ordinal i ds h1 (by omega)
  refine ⟨?_, ?_, ?_⟩
  · have h := loopVisits_ranges ds de h1 h2 hle
      (toOrdinal de - toOrdinal ds) 0 (by omega)
    simpa using h
  · rw [List.pairwise_map]
    refine List.Pairwise.imp_of_mem ?_ (List.pairwise_lt_range _)
    intro i j hi hj hij
    rw [List.mem_range] at hi hj
    have hvi := hvalid i hi
    have hvj := hvalid j hj
    exact (formatDate_lt_iff hvi.1 hvj.1).mpr (by omega)
  · intro d' hd'
    rw [List.mem_map]
    constructor
    · rintro ⟨i, hi, he⟩
      rw [List.mem_range] at hi
      have hv := hvalid i hi
      have heq : addDays ds i = d' := formatDate_inj hv.1 hd' he
      rw [heq] at hv
      omega
    · rintro ⟨hge, hlt⟩
      refine ⟨toOrdinal d' - toOrdinal ds, ?_, ?_⟩
      · rw [List.mem_range]; omega
      · have hv := hvalid (toOrdinal d' - toOrdinal ds) (by omega)
        have heq : addDays ds (toOrdinal d' - toOrdinal ds) = d' :=
          toOrdinal_inj hv.1 hd' (by omega)
        rw [heq]

/-- Witness for claim C6 on the concrete range 2024-01-01 to 2024-01-03
(two visited dates). -/
theorem c6_loop_dates_witness :
    loopVisits (toOrdinal (⟨2024, 1, 3⟩ : Date) -
          toOrdinal (⟨2024, 1, 1⟩ : Date) + 1)
        (formatDate ⟨2024, 1, 1⟩) (formatDate ⟨2024, 1, 3⟩)
      = some ((List.range (toOrdinal (⟨2024, 1, 3⟩ : Date) -
            toOrdinal (⟨2024, 1, 1⟩ : Date))).map
          (fun i => formatDate (addDays ⟨2024, 1, 1⟩ i)))
  ∧ List.Pairwise (· < ·)
      ((List.range (toOrdinal (⟨2024, 1, 3⟩ : Date) -
          toOrdinal (⟨2024, 1, 1⟩ : Date))).map
        (fun i => formatDate (addDays ⟨2024, 1, 1⟩ i)))
  ∧ (∀ d' : Date, validDate d' →
      (formatDate d' ∈ (List.range (toOrdinal (⟨2024, 1, 3⟩ : Date) -
            toOrdinal (⟨2024, 1, 1⟩ : Date))).map
          (fun i => formatDate (addDays ⟨2024, 1, 1⟩ i)) ↔
        toOrdinal (⟨2024, 1, 1⟩ : Date) ≤ toOrdinal d' ∧
          toOrdinal d' < toOrdinal (⟨2024, 1, 3⟩ : Date))) :=
  c6_loop_dates ⟨2024, 1, 1⟩ ⟨2024, 1, 3⟩ (by decide) (by decide) (by decide)

/-! ### The Day Fetcher -/

/-- Python substring containment `pat in s`: `pat` occurs contiguously
in `s` (always true for an empty `pat`). -/
def strContains : PyStr → PyStr → Bool
  | [], pat => pat.isEmpty
  | c :: rest, pat => pat.isPrefixOf (c :: rest) || strContains rest pat

/-- Python `s.split(sep)` for a non-empty separator, fuel-recursive
(`fuel = s.length + 1` always suffices, each step consuming at least one
character). -/
def splitSubF (sep : PyStr) : Nat → PyStr → List PyStr
  | _, [] => [[]]
  | 0, l => [l]
  | f + 1, c :: rest =>
    if sep.isPrefixOf (c :: rest) then
      [] :: splitSubF sep f (List.drop sep.length (c :: rest))
    else
      match splitSubF sep f rest with
      | [] => [[c]]
      | h :: t => (c :: h) :: t

/-- Python `s.split(sep)` (non-empty `sep`). -/
def pySplit (sep s : PyStr) : List PyStr := splitSubF sep (s.length + 1) s

/-- Drop the trailing empty piece of a `splitlines` split. -/
def dropTrailingEmpty (ps : List PyStr) : List PyStr :=
  if ps.getLast? = some ([] : PyStr) then ps.dropLast else ps

/-- Strip one trailing carriage return. -/
def stripCR (l : PyStr) : PyStr :=
  if l.getLast? = some '\r' then l.dropLast else l

/-- Python `str.splitlines()` for `\n` / `\r\n` terminated text (other
Unicode line separators do not occur in the chart exports modelled). -/
def pySplitlines (s : PyStr) : List PyStr :=
  dropTrailingEmpty ((pySplit ['\n'] s).map stripCR)

/-- The value of a non-empty all-digit string. -/
def digitsVal (l : List Char) : Option Nat :=
  if l ≠ [] ∧ l.all Char.isDigit then
    some (l.foldl (fun a c => 10 * a + dVal c) 0)
  else none

/-- Python `int(s)` on decimal strings: optional surrounding whitespace
and sign, then digits; `none` models the `ValueError` of a failed parse
(underscore digit grouping is not modelled). -/
def parsePyInt (s : PyStr) : Option Int :=
  match pyStrip s with
  | '-' :: rest => (digitsVal rest).map (fun n => -(n : Int))
  | '+' :: rest => (digitsVal rest).map (fun n => (n : Int))
  | l => (digitsVal l).map (fun n => (n : Int))

/-- Python `f"{t:02}"`: `str(t)` left-padded with `0` to width 2 (the
sign counts toward the width, as in Python). -/
def format02 (h : Int) : PyStr :=
  if (toString h).toList.length < 2 then '0' :: (toString h).toList
  else (toString h).toList

/-- The marker substring identifying the hourly-breakdown chart. -/
def marker : PyStr := "時間帯別".toList

/-- One row of the selected chart (source lines 267..272):
`tok = line.split(',')`; `t = int(tok[0])` (`ValueError` when `tok[0]`
is not an integer); `data = tok[1]` (`IndexError` when the row has no
comma); the artifact line written is `f"{date}T{t:02},{data}"`. -/
def rowToArtifact (date row : PyStr) : Except PyErr PyStr :=
  match splitComma row with
  | t0 :: rest =>
    match parsePyInt t0 with
    | none => .error PyErr.valueError
    | some h =>
      match rest with
      | d1 :: _ => .ok (date ++ "T".toList ++ format02 h ++ ",".toList ++ d1)
      | [] => .error PyErr.indexError
  | [] => .error PyErr.indexError

/-- All rows of the selected chart, in order; the first exception stops
the fetch (the partially-written artifact of a crashed fetch is not
modelled — the run aborts regardless). -/
def rowsToArtifact (date : PyStr) : List PyStr → Except PyErr (List PyStr)
  | [] => .ok []
  | row :: rest =>
    match rowToArtifact date row with
    | .error e => .error e
    | .ok line =>
      match rowsToArtifact date rest with
      | .error e => .error e
      | .ok ls => .ok (line :: ls)

/-- The outcome of one `get_Social_Insight_data_at_date` call at its
interface boundary: either the artifact lines it wrote, or no chart
matched the marker (an `ERROR` is logged, no file is written, the caller
continues), or a Python exception escaped. -/
inductive FetchOut where
  | wrote (lines : List PyStr)
  | noChart
  | crash (e : PyErr)
deriving DecidableEq

/-- `get_Social_Insight_data_at_date` (source lines 233..282): `charts`
is the list of `Highcharts.charts[i]?.getCSV?.()` results, in order,
`none` modelling a null `getCSV` result. The first chart whose CSV text
is non-falsy and contains the hourly marker is processed: its lines
after the first (the header) are re-keyed and written as the per-date
artifact; when no chart matches, the for-else logs an error and returns
without writing. -/
def get_Social_Insight_data_at_date (date : PyStr) :
    List (Option PyStr) → FetchOut
  | [] => .noChart
  | c :: rest =>
    match c with
    | none => get_Social_Insight_data_at_date date rest
    | some csv =>
      if csv = [] then get_Social_Insight_data_at_date date rest
      else if strContains csv marker then
        match rowsToArtifact date ((pySplitlines csv).drop 1) with
        | .ok lines => .wrote lines
        | .error e => .crash e
      else get_Social_Insight_data_at_date date rest

/-! ### Keyword resolution -/

/-- `get_keyword_id` (source lines 284..301): scan the anchors of the
keywords listing page, in order, for one whose stripped text equals the
keyword and whose href contains `"/keywords/"`; extract the id between
`"/keywords/"` and the next `"/"`. When no anchor matches, an `ERROR` is
logged and the function falls off the end, returning Python `None` —
no exception is raised (the `none` arm after a matching text whose
href splits into fewer than two parts is unreachable, since the split
separator occurs in the href). -/
def get_keyword_id (links : List (PyStr × PyStr)) (kw : PyStr) :
    Option PyStr :=
  match links with
  | [] => none
  | (text, href) :: rest =>
    if pyStrip text = kw then
      if strContains href "/keywords/".toList then
        match pySplit "/keywords/".toList href with
        | _ :: second :: _ => some ((pySplit "/".toList second).headD [])
        | _ => none
      else get_keyword_id rest kw
    else get_keyword_id rest kw

/-! ### The acquisition driver -/

/-- The cache filesystem: one artifact per path, as the list of its
written lines (each line without its trailing newline). -/
abbrev FS := List (PyStr × List PyStr)

/-- `save_csv_file(date)`: `f"{self._save_dir}/data_{date}.csv"`. -/
def save_csv_file (save_dir date : PyStr) : PyStr :=
  save_dir ++ "/data_".toList ++ date ++ ".csv".toList

/-- `open(path).readlines()` (stripped of trailing newlines); `none`
models `FileNotFoundError`. -/
def fsRead (fs : FS) (path : PyStr) : Option (List PyStr) := lookA fs path

/-- `os.path.exists(path)`. -/
def fsExists (fs : FS) (path : PyStr) : Bool := (lookA fs path).isSome

/-- `add_data_from_csv(date)` (source lines 216..231): create period 0
when `_data` is empty, then open the artifact — `FileNotFoundError` when
it is absent (the creation has already mutated the store) — and run the
line loop. -/
def add_data_from_csv (s : Store) (fs : FS) (path : PyStr) :
    Store × Option PyErr :=
  match fsRead fs path with
  | none => (createIfEmpty s, some (PyErr.fileNotFound path))
  | some lines => add_data_from_csv_lines s lines

/-- The observable result of a run (or of its abort): the resolved
keyword id, the cache filesystem, the series store, the dates for which
the Day Fetcher was invoked (cache misses, successful or not), and the
escaped exception when the run aborted. -/
structure RunState where
  kid : Option PyStr
  fs : FS
  store : Store
  fetched : List PyStr
  err : Option PyErr
deriving DecidableEq

/-- The fetch-or-skip step for one date (source lines 163..169): when
the artifact exists only a notice is logged; otherwise the Day Fetcher
runs — writing the artifact on success, writing nothing on a no-chart
failure, or escaping with an exception. Returns the filesystem, the
updated fetched-dates list, and the escaped exception if any. -/
def fetchStep (fetchF : PyStr → FetchOut) (fs : FS) (fetched : List PyStr)
    (path date : PyStr) : FS × List PyStr × Option PyErr :=
  if fsExists fs path then (fs, fetched, none)
  else
    match fetchF date with
    | .wrote ls => (setA fs path ls, fetched ++ [date], none)
    | .noChart => (fs, fetched ++ [date], none)
    | .crash e => (fs, fetched ++ [date], some e)

/-- The date loop of `get_Social_Insight_data` (source lines 161..171):
while `date < end_date` (string comparison), fetch-or-skip, then
unconditionally `add_data_from_csv(date)`, then
`date = shift_date(date, 1)`. An escaped exception aborts the run at
that point; `none` means the fuel bound was reached first. -/
def runLoop (kid : Option PyStr) (fetchF : PyStr → FetchOut)
    (stop sd : PyStr) :
    Nat → FS → Store → List PyStr → PyStr → Option RunState
  | 0, _, _, _, _ => none
  | fuel + 1, fs, store, fetched, date =>
    if date < stop then
      match fetchStep fetchF fs fetched (save_csv_file sd date) date with
      | (fs', fetched', some e) => some ⟨kid, fs', store, fetched', some e⟩
      | (fs', fetched', none) =>
        match add_data_from_csv store fs' (save_csv_file sd date) with
        | (store', some e) => some ⟨kid, fs', store', fetched', some e⟩
        | (store', none) =>
          match shift_date date 1 with
          | some d2 => runLoop kid fetchF stop sd fuel fs' store' fetched' d2
          | none => some ⟨kid, fs', store', fetched', some PyErr.valueError⟩
    else some ⟨kid, fs, store, fetched, none⟩

/-- The save directory: the `-s` argument when non-empty, else
`SI_{keyword}/csv`. -/
def effSaveDir (save_dir kw : PyStr) : PyStr :=
  if save_dir ≠ [] then save_dir else "SI_".toList ++ kw ++ "/csv".toList

/-- `get_Social_Insight_data` (source lines 123..171) on a fresh
`SocialInsightData()` instance, with the browser session, login and
directory creation abstracted away: set the save directory, reset
`_num_period` and `_max_period` to 0 (`_data` starts empty on a fresh
instance), resolve the keyword id once — `None`, with an error logged,
when no anchor matches — and walk the date range. -/
def get_Social_Insight_data (fuel : Nat) (links : List (PyStr × PyStr))
    (fetchF : PyStr → FetchOut) (fs : FS)
    (start_date end_date kw save_dir : PyStr) : Option RunState :=
  runLoop (get_keyword_id links kw) fetchF end_date
    (effSaveDir save_dir kw) fuel fs ⟨[], 0, 0⟩ [] start_date

/-- Stable insertion of a `(timestamp, value)` pair into a key-sorted
list, before the first pair whose key is not smaller. -/
def insTS (x : PyStr × PyStr) : List (PyStr × PyStr) → List (PyStr × PyStr)
  | [] => [x]
  | y :: ys => if y.1 < x.1 then y :: insTS x ys else x :: y :: ys

/-- `sorted(items, key = timestamp)` (stable, ascending). -/
def sortByKey : List (PyStr × PyStr) → List (PyStr × PyStr)
  | [] => []
  | x :: rest => insTS x (sortByKey rest)

/-- `print_data_of_max_period` (source lines 349..353): read
`self._data[self._max_period]` — an uncaught `KeyError` when that period
does not exist — and print its items sorted by timestamp; modelled as
returning the printed items. -/
def print_data_of_max_period (s : Store) :
    Except PyErr (List (PyStr × PyStr)) :=
  match lookA s.data s.max_period with
  | none => .error PyErr.keyError
  | some p => .ok (sortByKey p)

/-! ### Generic run-loop lemmas -/

theorem runLoop_succ (kid : Option PyStr) (fetchF : PyStr → FetchOut)
    (stop sd : PyStr) (fuel : Nat) (fs : FS) (store : Store)
    (fetched : List PyStr) (date : PyStr) :
    runLoop kid fetchF stop sd (fuel + 1) fs store fetched date =
      if date < stop then
        match fetchStep fetchF fs fetched (save_csv_file sd date) date with
        | (fs', fetched', some e) => some ⟨kid, fs', store, fetched', some e⟩
        | (fs', fetched', none) =>
          match add_data_from_csv store fs' (save_csv_file sd date) with
          | (store', some e) => some ⟨kid, fs', store', fetched', some e⟩
          | (store', none) =>
            match shift_date date 1 with
            | some d2 => runLoop kid fetchF stop sd fuel fs' store' fetched' d2
            | none => some ⟨kid, fs', store', fetched', some PyErr.valueError⟩
      else some ⟨kid, fs, store, fetched, none⟩ := rfl

theorem runLoop_exit (kid : Option PyStr) (fetchF : PyStr → FetchOut)
    (stop sd : PyStr) (fuel : Nat) (fs : FS) (store : Store)
    (fetched : List PyStr) (date : PyStr) (hc : ¬ date < stop) :
    runLoop kid fetchF stop sd (fuel + 1) fs store fetched date =
      some ⟨kid, fs, store, fetched, none⟩ := by
  rw [runLoop_succ, if_neg hc]

theorem runLoop_kid {kid : Option PyStr} {fetchF : PyStr → FetchOut}
    {stop sd : PyStr} :
    ∀ (fuel : Nat) (fs : FS) (store : Store) (fetched : List PyStr)
      (date : PyStr) (st : RunState),
    runLoop kid fetchF stop sd fuel fs store fetched date = some st →
    st.kid = kid := by
  intro fuel
  induction fuel with
  | zero => intro fs store fetched date st h; simp [runLoop] at h
  | succ f ih =>
    intro fs store fetched date st h
    rw [runLoop_succ] at h
    split at h
    · split at h
      · cases Option.some.inj h; rfl
      · split at h
        · cases Option.some.inj h; rfl
        · split at h
          · exact ih _ _ _ _ _ h
          · cases Option.some.inj h; rfl
    · cases Option.some.inj h; rfl

theorem runLoop_fetched_extend {kid : Option PyStr} {fetchF : PyStr → FetchOut}
    {stop sd : PyStr} :
    ∀ (fuel : Nat) (fs : FS) (store : Store) (fetched : List PyStr)
      (date : PyStr) (st : RunState),
    runLoop kid fetchF stop sd fuel fs store fetched date = some st →
    ∃ tail, st.fetched = fetched ++ tail := by
  intro fuel
  induction fuel with
  | zero => intro fs store fetched date st h; simp [runLoop] at h
  | succ f ih =>
    intro fs store fetched date st h
    have hstep : ∃ t0, (fetchStep fetchF fs fetched (save_csv_file sd date)
        date).2.1 = fetched ++ t0 := by
      unfold fetchStep
      split
      · exact ⟨[], by simp⟩
      · rcases fetchF date with ls | _ | e
        · exact ⟨[date], rfl⟩
        · exact ⟨[date], rfl⟩
        · exact ⟨[date], rfl⟩
    obtain ⟨t0, ht0⟩ := hstep
    rw [runLoop_succ] at h
    split at h
    · split at h
      · next fs' fetched' e heq =>
        cases Option.some.inj h
        rw [heq] at ht0
        exact ⟨t0, ht0⟩
      · next fs' fetched' heq =>
        rw [heq] at ht0
        split at h
        · cases Option.some.inj h
          exact ⟨t0, ht0⟩
        · split at h
          · obtain ⟨t1, ht1⟩ := ih _ _ _ _ _ h
            have ht0' : fetched' = fetched ++ t0 := ht0
            exact ⟨t0 ++ t1, by rw [ht1, ht0', List.append_assoc]⟩
          · cases Option.some.inj h
            exact ⟨t0, ht0⟩
    · cases Option.some.inj h
      exact ⟨[], by simp⟩

theorem fetchStep_miss {fetchF : PyStr → FetchOut} {fs : FS}
    {fetched : List PyStr} {path date : PyStr}
    (hmiss : lookA fs path = none) :
    (fetchStep fetchF fs fetched path date).2.1 = fetched ++ [date] := by
  have hfs : fsExists fs path = false := by
    unfold fsExists; rw [hmiss]; rfl
  unfold fetchStep
  rw [hfs]
  rcases fetchF date with ls | _ | e <;> rfl

theorem runLoop_step_fetched {kid : Option PyStr} {fetchF : PyStr → FetchOut}
    {stop sd : PyStr} {fuel : Nat} {fs : FS} {store : Store}
    {fetched : List PyStr} {date : PyStr} {st : RunState}
    (hc : date < stop)
    (hrun : runLoop kid fetchF stop sd (fuel + 1) fs store fetched date =
      some st) :
    ∃ tail, st.fetched =
      (fetchStep fetchF fs fetched (save_csv_file sd date) date).2.1 ++ tail := by
  rw [runLoop_succ, if_pos hc] at hrun
  split at hrun
  · next fs' fetched' e heq =>
    cases Option.some.inj hrun
    exact ⟨[], by rw [heq]; simp⟩
  · next fs' fetched' heq =>
    split at hrun
    · cases Option.some.inj hrun
      exact ⟨[], by rw [heq]; simp⟩
    · split at hrun
      · obtain ⟨t1, ht1⟩ := runLoop_fetched_extend _ _ _ _ _ _ hrun
        exact ⟨t1, by rw [ht1, heq]⟩
      · cases Option.some.inj hrun
        exact ⟨[], by rw [heq]; simp⟩

/-! ### Claim C1: a fetch failure aborts the run -/

/-- Claim C1 is false on the code: with an empty cache and a remote
response containing no chart with the hourly marker, the run over
2024-01-01..2024-01-03 aborts at the first date with an uncaught
`FileNotFoundError` from `add_data_from_csv` — it does not continue to
the next date (only one date was ever fetched, and the store only holds
the freshly created empty period 0). -/
theorem c1_counterexample :
    get_Social_Insight_data 2 [("k".toList, "/keywords/5/tw".toList)]
      (fun d => get_Social_Insight_data_at_date d []) []
      "2024-01-01".toList "2024-01-03".toList "k".toList "dir".toList =
    some ⟨some "5".toList, [], ⟨[(0, [])], 1, 0⟩, ["2024-01-01".toList],
      some (PyErr.fileNotFound ("dir/data_2024-01-01.csv".toList))⟩ := by
  rfl

/-- Claim C1 (amended): when a date is reached whose artifact is absent
and whose Day Fetcher invocation fails (no chart contains the
hourly-breakdown marker, so nothing is written), the acquisition run
aborts at that date: the unconditional `add_data_from_csv` raises
`FileNotFoundError` on the missing artifact and no later date is
visited, whatever fuel remains. The failed date still pays the
period-0 creation in the store. -/
theorem c1_fetch_failure_aborts (kid : Option PyStr)
    (fetchF : PyStr → FetchOut) (stop sd : PyStr) (fuel : Nat) (fs : FS)
    (store : Store) (fetched : List PyStr) (date : PyStr)
    (hc : date < stop) (hmiss : lookA fs (save_csv_file sd date) = none)
    (hf : fetchF date = FetchOut.noChart) :
    runLoop kid fetchF stop sd (fuel + 1) fs store fetched date =
      some ⟨kid, fs, createIfEmpty store, fetched ++ [date],
        some (PyErr.fileNotFound (save_csv_file sd date))⟩ := by
  have hfs : fsExists fs (save_csv_file sd date) = false := by
    unfold fsExists; rw [hmiss]; rfl
  have h1 : fetchStep fetchF fs fetched (save_csv_file sd date) date =
      (fs, fetched ++ [date], none) := by
    unfold fetchStep
    rw [hfs, hf]
    rfl
  have h2 : add_data_from_csv store fs (save_csv_file sd date) =
      (createIfEmpty store,
        some (PyErr.fileNotFound (save_csv_file sd date))) := by
    unfold add_data_from_csv fsRead
    rw [hmiss]
  rw [runLoop_succ, if_pos hc]
  simp only [h1, h2]

/-- Witness for the amended claim C1 at a concrete mid-range date with
fuel to spare. -/
theorem c1_fetch_failure_aborts_witness :
    runLoop (some "5".toList) (fun _ => FetchOut.noChart)
        "2024-01-05".toList "dd".toList 3 [] ⟨[], 0, 0⟩ []
        "2024-01-02".toList =
      some ⟨some "5".toList, [], createIfEmpty ⟨[], 0, 0⟩,
        ["2024-01-02".toList],
        some (PyErr.fileNotFound
          (save_csv_file "dd".toList "2024-01-02".toList))⟩ :=
  c1_fetch_failure_aborts (some "5".toList) (fun _ => FetchOut.noChart)
    "2024-01-05".toList "dd".toList 2 [] ⟨[], 0, 0⟩ [] "2024-01-02".toList
    (by decide) rfl rfl

/-! ### Claim C2: an unresolved keyword does not halt the run -/

/-- Claim C2 is false on the code: `get_keyword_id` raises nothing when
no link matches — it logs an error and returns Python `None` — and the
run then proceeds to fetch dates in the range: here the single date of
the range is fetched and the whole run completes without any
exception, with `keyword_id = None`. -/
theorem c2_counterexample :
    get_keyword_id ([] : List (PyStr × PyStr)) "x".toList = none
  ∧ get_Social_Insight_data 2 []
      (fun d => get_Social_Insight_data_at_date d
        [some ("時間帯別\n0,1".toList)]) []
      "2024-01-01".toList "2024-01-02".toList "x".toList "d".toList =
    some ⟨none, [("d/data_2024-01-01.csv".toList, ["2024-01-01T00,1".toList])],
      ⟨[(0, [("2024-01-01T00".toList, "1".toList)])], 1, 0⟩,
      ["2024-01-01".toList], none⟩ := by
  exact ⟨rfl, by rfl⟩

/-- Claim C2 (amended): when keyword resolution finds no matching link,
no `KeywordNotFoundError` exists or is raised — `keyword_id` is set to
`None` and the run is not halted: per-date fetching still begins, and
with a cache miss on the start date that date is fetched. -/
theorem c2_keyword_not_found_run_continues (links : List (PyStr × PyStr))
    (kw : PyStr) (fetchF : PyStr → FetchOut) (fs : FS)
    (start stop sdir : PyStr) (fuel : Nat) (st : RunState)
    (hkw : get_keyword_id links kw = none)
    (hlt : start < stop)
    (hmiss : lookA fs (save_csv_file (effSaveDir sdir kw) start) = none)
    (hrun : get_Social_Insight_data (fuel + 1) links fetchF fs start stop kw
      sdir = some st) :
    st.kid = none ∧ start ∈ st.fetched := by
  unfold get_Social_Insight_data at hrun
  refine ⟨by rw [runLoop_kid _ _ _ _ _ _ hrun, hkw], ?_⟩
  obtain ⟨tail, htail⟩ := runLoop_step_fetched hlt hrun
  rw [htail, fetchStep_miss hmiss]
  simp

/-- Witness for the amended claim C2: a run whose keyword is unmatched
and whose single date is fetched (and then aborts on the missing
artifact, since the fetch found no chart). -/
theorem c2_keyword_not_found_run_continues_witness :
    ∃ st, get_Social_Insight_data 1 [("other".toList, "/x".toList)]
        (fun _ => FetchOut.noChart) []
        "2024-01-01".toList "2024-01-02".toList "y".toList "dd".toList =
      some st ∧ st.kid = none ∧ "2024-01-01".toList ∈ st.fetched :=
  ⟨_, rfl, c2_keyword_not_found_run_continues [("other".toList, "/x".toList)]
    "y".toList (fun _ => FetchOut.noChart) [] "2024-01-01".toList
    "2024-01-02".toList "dd".toList 0 _ rfl (by decide) rfl rfl⟩

/-! ### Claim C8: the max-period marker -/

/-- The shape `_data` can ever have: empty, or exactly the single
period 0. -/
def periodShape (dta : Data) : Prop := dta = [] ∨ ∃ p, dta = [(0, p)]

/-- The number of distinct timestamps of a period. -/
def numKeys (p : Period) : Nat := (keysOf p).dedup.length

theorem setA_single {p X : Period} :
    setA [((0 : Nat), p)] 0 X = [(0, X)] := by
  unfold setA
  simp [keysOf]

theorem createIfEmpty_max (s : Store) :
    (createIfEmpty s).max_period = s.max_period := by
  unfold createIfEmpty
  split <;> rfl

theorem createIfEmpty_shape (s : Store) (h : periodShape s.data) :
    periodShape (createIfEmpty s).data := by
  rcases h with h | ⟨p, hp⟩
  · right
    refine ⟨[], ?_⟩
    unfold createIfEmpty
    rw [if_pos (by simp [h])]
  · right
    refine ⟨p, ?_⟩
    unfold createIfEmpty
    rw [if_neg (by simp [hp])]
    exact hp

theorem add_lines_shape (s : Store) (lines : List PyStr)
    (h : periodShape s.data) :
    periodShape (add_data_from_csv_lines s lines).1.data ∧
      (add_data_from_csv_lines s lines).1.max_period = s.max_period := by
  rcases h with h | ⟨p, hp⟩
  · have hcr : createIfEmpty s =
        { s with data := [(0, [])], num_period := 1 } := by
      unfold createIfEmpty
      rw [if_pos (by simp [h])]
    have h0 : lookA (createIfEmpty s).data 0 = some ([] : Period) := by
      rw [hcr]; simp [lookA]
    rw [add_lines_char s lines [] h0]
    constructor
    · by_cases hp0 : (parseRecord lines).1 = []
      · simp only [if_pos hp0]
        exact Or.inr ⟨[], by rw [hcr]⟩
      · simp only [if_neg hp0]
        refine Or.inr ⟨applyPairs [] (parseRecord lines).1, ?_⟩
        show setA (createIfEmpty s).data 0 (applyPairs [] (parseRecord lines).1)
          = [(0, applyPairs [] (parseRecord lines).1)]
        rw [hcr]
        exact setA_single
    · show (createIfEmpty s).max_period = s.max_period
      exact createIfEmpty_max s
  · have hcr : createIfEmpty s = s := createIfEmpty_of_ne (by simp [hp])
    have h0 : lookA (createIfEmpty s).data 0 = some p := by
      rw [hcr, hp]; simp [lookA]
    rw [add_lines_char s lines p h0]
    constructor
    · by_cases hp0 : (parseRecord lines).1 = []
      · simp only [if_pos hp0]
        exact Or.inr ⟨p, by rw [hcr, hp]⟩
      · simp only [if_neg hp0]
        refine Or.inr ⟨applyPairs p (parseRecord lines).1, ?_⟩
        show setA (createIfEmpty s).data 0 (applyPairs p (parseRecord lines).1)
          = [(0, applyPairs p (parseRecord lines).1)]
        rw [hcr, hp]
        exact setA_single
    · show (createIfEmpty s).max_period = s.max_period
      exact createIfEmpty_max s

theorem add_csv_shape (s : Store) (fs : FS) (path : PyStr)
    (h : periodShape s.data) :
    periodShape (add_data_from_csv s fs path).1.data ∧
      (add_data_from_csv s fs path).1.max_period = s.max_period := by
  unfold add_data_from_csv
  rcases hr : fsRead fs path with _ | lines
  · exact ⟨createIfEmpty_shape s h, createIfEmpty_max s⟩
  · exact add_lines_shape s lines h

theorem runLoop_shape {kid : Option PyStr} {fetchF : PyStr → FetchOut}
    {stop sd : PyStr} :
    ∀ (fuel : Nat) (fs : FS) (store : Store) (fetched : List PyStr)
      (date : PyStr) (st : RunState),
    periodShape store.data →
    runLoop kid fetchF stop sd fuel fs store fetched date = some st →
    periodShape st.store.data ∧ st.store.max_period = store.max_period := by
  intro fuel
  induction fuel with
  | zero => intro fs store fetched date st _ h; simp [runLoop] at h
  | succ f ih =>
    intro fs store fetched date st hshape h
    rw [runLoop_succ] at h
    split at h
    · split at h
      · cases Option.some.inj h
        exact ⟨hshape, rfl⟩
      · next fs' fetched' heq =>
        split at h
        · next store' e heq2 =>
          cases Option.some.inj h
          have := add_csv_shape store fs' (save_csv_file sd date) hshape
          rw [heq2] at this
          exact this
        · next store' heq2 =>
          have hsh' := add_csv_shape store fs' (save_csv_file sd date) hshape
          rw [heq2] at hsh'
          split at h
          · have := ih _ _ _ _ _ hsh'.1 h
            exact ⟨this.1, by rw [this.2, hsh'.2]⟩
          · cases Option.some.inj h
            exact hsh'
    · cases Option.some.inj h
      exact ⟨hshape, rfl⟩

/-- Claim C8 is false as stated: after a run over an empty range (legal
per the spec), `_max_period = 0` references no existing period at all —
`_data` has no key `0`. -/
theorem c8_counterexample :
    (get_Social_Insight_data 1 [] (fun _ => FetchOut.noChart) []
        "2024-01-01".toList "2024-01-01".toList "k".toList "dir".toList).map
      (fun st => lookA st.store.data st.store.max_period) = some none := by
  rfl

/-- Claim C8 (amended): at the end of every run (however it ended),
`_max_period` is `0`, and whenever any period exists at all, period `0`
is the unique period, so `_max_period` indexes an existing period whose
mapping holds at least as many distinct timestamps as every other
existing period. When no period exists (zero iterations), it references
none. -/
theorem c8_max_period (fuel : Nat) (links : List (PyStr × PyStr))
    (fetchF : PyStr → FetchOut) (fs : FS) (start stop kw sdir : PyStr)
    (st : RunState)
    (hrun : get_Social_Insight_data fuel links fetchF fs start stop kw sdir =
      some st) :
    st.store.max_period = 0 ∧
    (st.store.data ≠ [] →
      ∃ p, lookA st.store.data st.store.max_period = some p ∧
        ∀ q pq, lookA st.store.data q = some pq → numKeys pq ≤ numKeys p) := by
  unfold get_Social_Insight_data at hrun
  rcases fuel with _ | f
  · simp [runLoop] at hrun
  · have hinv := runLoop_shape (f + 1) fs ⟨[], 0, 0⟩ [] start st
      (Or.inl rfl) hrun
    refine ⟨hinv.2, ?_⟩
    intro hne
    rcases hinv.1 with h | ⟨p, hp⟩
    · exact absurd h hne
    · refine ⟨p, ?_, ?_⟩
      · rw [hp, hinv.2]
        simp [lookA]
      · intro q pq hq
        rw [hp] at hq
        by_cases h0 : (0 : Nat) = q
        · simp [lookA, h0] at hq
          rw [hq]
        · simp [lookA, h0] at hq

/-- Witness for the amended claim C8: a completed one-day run whose
single period 0 is referenced by `_max_period`. -/
theorem c8_max_period_witness :
    ∃ st, get_Social_Insight_data 2 []
        (fun _ => FetchOut.wrote ["2024-01-01T00,1".toList]) []
        "2024-01-01".toList "2024-01-02".toList "k".toList "d".toList =
      some st ∧
      (st.store.max_period = 0 ∧
        (st.store.data ≠ [] →
          ∃ p, lookA st.store.data st.store.max_period = some p ∧
            ∀ q pq, lookA st.store.data q = some pq →
              numKeys pq ≤ numKeys p)) :=
  ⟨_, rfl, c8_max_period 2 []
    (fun _ => FetchOut.wrote ["2024-01-01T00,1".toList]) []
    "2024-01-01".toList "2024-01-02".toList "k".toList "d".toList _ rfl⟩

/-! ### Claim C10: the empty range -/

/-- Claim C10: when `start_date` equals `end_date`, the loop runs zero
iterations (zero fetches) whatever the environment, the store stays
empty with `_num_period = 0` and `_max_period = 0`, the run raises
nothing — and the subsequent max-period report fails with an uncaught
`KeyError`, because it indexes period `_max_period = 0`, which was
never created. -/
theorem c10_empty_range (d kw sdir : PyStr) (links : List (PyStr × PyStr))
    (fetchF : PyStr → FetchOut) (fs : FS) (fuel : Nat) :
    get_Social_Insight_data (fuel + 1) links fetchF fs d d kw sdir =
      some ⟨get_keyword_id links kw, fs, ⟨[], 0, 0⟩, [], none⟩
  ∧ print_data_of_max_period ⟨[], 0, 0⟩ = .error PyErr.keyError := by
  refine ⟨?_, rfl⟩
  unfold get_Social_Insight_data
  exact runLoop_exit _ _ _ _ fuel fs _ [] d (lt_irrefl d)

/-! ### Claim C9: the Day Fetcher row transformation -/

/-- A chart the scan passes over: a null `getCSV` result, an empty CSV
text, or a text without the hourly marker. -/
def chartSkipped : Option PyStr → Prop
  | none => True
  | some s => s = [] ∨ strContains s marker = false

theorem chart_scan_skip (date : PyStr) :
    ∀ (pre rest : List (Option PyStr)), (∀ c ∈ pre, chartSkipped c) →
    get_Social_Insight_data_at_date date (pre ++ rest) =
      get_Social_Insight_data_at_date date rest := by
  intro pre
  induction pre with
  | nil => intro rest _; rfl
  | cons c cs ih =>
    intro rest hpre
    have hc := hpre c (List.mem_cons_self _ _)
    have hcs := fun c' hc' => hpre c' (List.mem_cons_of_mem _ hc')
    rcases c with _ | s
    · exact ih rest hcs
    · rcases hc with hc | hc
      · subst hc
        exact ih rest hcs
      · by_cases hs : s = []
        · subst hs
          exact ih rest hcs
        · show get_Social_Insight_data_at_date date
            (some s :: (cs ++ rest)) = _
          simp only [get_Social_Insight_data_at_date]
          rw [if_neg hs, if_neg (by simp [hc])]
          exact ih rest hcs

theorem rowsToArtifact_ok (date : PyStr) :
    ∀ rows : List PyStr,
    (∀ r ∈ rows, ∃ t0 t1 rest h, splitComma r = t0 :: t1 :: rest ∧
      parsePyInt t0 = some h) →
    ∃ outs, rowsToArtifact date rows = .ok outs ∧
      List.Forall₂ (fun r out => ∀ t0 t1 rest h,
        splitComma r = t0 :: t1 :: rest → parsePyInt t0 = some h →
        out = date ++ "T".toList ++ format02 h ++ ",".toList ++ t1)
        rows outs := by
  intro rows
  induction rows with
  | nil => intro _; exact ⟨[], rfl, List.Forall₂.nil⟩
  | cons row rest ih =>
    intro hr
    obtain ⟨t0, t1, rest', h, hsp, hint⟩ := hr row (List.mem_cons_self _ _)
    obtain ⟨outs, houts, hfa⟩ :=
      ih (fun r hr' => hr r (List.mem_cons_of_mem _ hr'))
    have hrow : rowToArtifact date row =
        .ok (date ++ "T".toList ++ format02 h ++ ",".toList ++ t1) := by
      simp only [rowToArtifact, hsp, hint]
    refine ⟨(date ++ "T".toList ++ format02 h ++ ",".toList ++ t1) :: outs,
      ?_, ?_⟩
    · simp only [rowsToArtifact]
      rw [hrow, houts]
    · refine List.Forall₂.cons ?_ hfa
      intro t0' t1' rest'' h' hsp' hint'
      rw [hsp] at hsp'
      injection hsp' with e1 e2
      injection e2 with e3 _
      subst e1
      subst e3
      rw [hint] at hint'
      injection hint' with e4
      rw [e4]

/-- Claim C9: for every date `d`, when the scan selects a chart — every
earlier chart is null, empty or unmarked, this one is non-empty and
contains the hourly marker — and every non-header row's first
comma-separated token is an integer, the Day Fetcher writes the cache
artifact with exactly one line per non-header row (the first line, the
header, excluded): for the row with first-token value `h` and second
token `t1`, the written line is `d`, the letter `T`, `h` zero-padded to
two digits, a comma, and `t1`. -/
theorem c9_fetcher_rows (date csv : PyStr) (pre post : List (Option PyStr))
    (hpre : ∀ c ∈ pre, chartSkipped c)
    (hcsv : csv ≠ []) (hm : strContains csv marker = true)
    (hrows : ∀ r ∈ (pySplitlines csv).drop 1,
      ∃ t0 t1 rest h, splitComma r = t0 :: t1 :: rest ∧
        parsePyInt t0 = some h) :
    ∃ outs, get_Social_Insight_data_at_date date (pre ++ some csv :: post) =
        FetchOut.wrote outs ∧
      List.Forall₂ (fun r out => ∀ t0 t1 rest h,
        splitComma r = t0 :: t1 :: rest → parsePyInt t0 = some h →
        out = date ++ "T".toList ++ format02 h ++ ",".toList ++ t1)
        ((pySplitlines csv).drop 1) outs := by
  obtain ⟨outs, houts, hfa⟩ := rowsToArtifact_ok date _ hrows
  refine ⟨outs, ?_, hfa⟩
  rw [chart_scan_skip date pre _ hpre]
  show get_Social_Insight_data_at_date date (some csv :: post) = _
  simp only [get_Social_Insight_data_at_date]
  rw [if_neg hcsv, if_pos hm, houts]

/-- Witness for claim C9: one null chart, then the marked hourly chart
with a header and one row `5,42`. -/
theorem c9_fetcher_rows_witness :
    ∃ outs, get_Social_Insight_data_at_date "2024-01-01".toList
        ([none] ++ some ("時間帯別\n5,42".toList) :: []) =
        FetchOut.wrote outs ∧
      List.Forall₂ (fun r out => ∀ t0 t1 rest h,
        splitComma r = t0 :: t1 :: rest → parsePyInt t0 = some h →
        out = "2024-01-01".toList ++ "T".toList ++ format02 h ++
          ",".toList ++ t1)
        ((pySplitlines ("時間帯別\n5,42".toList)).drop 1) outs := by
  refine c9_fetcher_rows "2024-01-01".toList ("時間帯別\n5,42".toList)
    [none] [] ?_ (by decide) (by decide) ?_
  · intro c hc
    simp at hc
    rw [hc]
    trivial
  · intro r hr
    have hP : (pySplitlines ("時間帯別\n5,42".toList)).drop 1 =
        ["5,42".toList] := by decide
    rw [hP] at hr
    have hr' : r = "5,42".toList := by simpa using hr
    subst hr'
    exact ⟨"5".toList, "42".toList, [], 5, by decide, by decide⟩

/-! ### Claim C7: range containment of the assembled timestamps -/

/-- The date part of an hourly timestamp `YYYY-MM-DDTHH`: its first ten
characters. -/
def datePart (t : PyStr) : PyStr := t.take 10

/-- An artifact for date `d` in this program's Day Fetcher format: every
`(timestamp, value)` pair its CSV Row Parser extracts has a timestamp of
the form `d ++ "T" ++ hh` (source line 272 writes
`f"{date}T{t:02},{data}\n"`). -/
def goodArtifact (d : PyStr) (lines : List PyStr) : Prop :=
  ∀ tp ∈ (parseRecord lines).1, ∃ hh : PyStr, tp.1 = d ++ "T".toList ++ hh

/-- A timestamp whose date part is a well-formed date inside the
requested range `[ds, de)`. -/
def inRange (ds de : Date) (t : PyStr) : Prop :=
  ∃ d', parseDate (datePart t) = some d' ∧ validDate d' ∧
    toOrdinal ds ≤ toOrdinal d' ∧ toOrdinal d' < toOrdinal de

/-- Every timestamp stored in any period of the series satisfies `P`. -/
def storeGood (P : PyStr → Prop) (store : Store) : Prop :=
  ∀ q pq t v, lookA store.data q = some pq → (t, v) ∈ pq → P t

/-- Run invariant for the cache filesystem: every artifact readable under
the run's save directory was either already present in the initial
filesystem `fs0` or was written by the Day Fetcher `fetchF` during the
run. -/
def FSInv (fetchF : PyStr → FetchOut) (fs0 fs : FS) (sd : PyStr) : Prop :=
  ∀ d lines, lookA fs (save_csv_file sd d) = some lines →
    lookA fs0 (save_csv_file sd d) = some lines ∨
      fetchF d = FetchOut.wrote lines

theorem lookA_append_some {κ α : Type} [DecidableEq κ]
    {l₁ : List (κ × α)} (l₂ : List (κ × α)) {k : κ} {a : α}
    (h : lookA l₁ k = some a) : lookA (l₁ ++ l₂) k = some a := by
  induction l₁ with
  | nil => simp [lookA] at h
  | cons kv rest ih =>
    simp only [lookA, List.cons_append] at h ⊢
    by_cases hk : kv.1 = k
    · simpa [hk] using h
    · rw [if_neg hk] at h ⊢
      exact ih h

theorem lookA_map_set_ne {κ α : Type} [DecidableEq κ]
    (l : List (κ × α)) {k k' : κ} (a : α) (hne : k' ≠ k) :
    lookA (l.map (fun kv => if kv.1 = k then (k, a) else kv)) k' =
      lookA l k' := by
  induction l with
  | nil => rfl
  | cons kv rest ih =>
    by_cases hk : kv.1 = k
    · simp only [List.map_cons, if_pos hk, lookA]
      rw [if_neg (fun hh : k = k' => hne hh.symm),
        if_neg (fun hh : kv.1 = k' => hne (hh ▸ hk))]
      exact ih
    · simp only [List.map_cons, if_neg hk, lookA]
      by_cases hk' : kv.1 = k'
      · simp [hk']
      · simp only [if_neg hk']
        exact ih

theorem lookA_setA_ne {κ α : Type} [DecidableEq κ]
    (l : List (κ × α)) {k k' : κ} (a : α) (hne : k' ≠ k) :
    lookA (setA l k a) k' = lookA l k' := by
  unfold setA
  split
  · exact lookA_map_set_ne l a hne
  · rcases hl : lookA l k' with _ | x
    · rw [lookA_append_of_none _ hl]
      simp [lookA]
      exact fun hh => hne hh.symm
    · exact lookA_append_some [(k, a)] hl

theorem mem_setA {κ α : Type} [DecidableEq κ] {l : List (κ × α)}
    {k k0 : κ} {a a0 : α} (h : (k0, a0) ∈ setA l k a) :
    (∃ a1, (k0, a1) ∈ l) ∨ k0 = k := by
  unfold setA at h
  split at h
  · obtain ⟨kv, hkv, he⟩ := List.mem_map.mp h
    by_cases hk : kv.1 = k
    · rw [if_pos hk] at he
      injection he with h1 h2
      exact Or.inr h1.symm
    · rw [if_neg hk] at he
      exact Or.inl ⟨a0, he ▸ hkv⟩
  · rcases List.mem_append.mp h with h | h
    · exact Or.inl ⟨a0, h⟩
    · have he := List.mem_singleton.mp h
      injection he with h1 h2
      exact Or.inr h1

theorem save_csv_file_inj {sd d1 d2 : PyStr}
    (h : save_csv_file sd d1 = save_csv_file sd d2) : d1 = d2 := by
  unfold save_csv_file at h
  exact List.append_cancel_left (List.append_cancel_right h)

theorem FSInv_init (fetchF : PyStr → FetchOut) (fs0 : FS) (sd : PyStr) :
    FSInv fetchF fs0 fs0 sd :=
  fun _ _ h => Or.inl h

theorem FSInv_write {fetchF : PyStr → FetchOut} {fs0 fs : FS} {sd : PyStr}
    {date : PyStr} {ls : List PyStr}
    (hinv : FSInv fetchF fs0 fs sd) (hf : fetchF date = FetchOut.wrote ls) :
    FSInv fetchF fs0 (setA fs (save_csv_file sd date) ls) sd := by
  intro d lines h
  by_cases hp : save_csv_file sd d = save_csv_file sd date
  · have hd : d = date := save_csv_file_inj hp
    subst hd
    rw [lookA_setA] at h
    right
    rw [hf]
    exact congrArg FetchOut.wrote (Option.some.inj h)
  · rw [lookA_setA_ne fs ls hp] at h
    exact hinv d lines h

theorem fetchStep_inv {fetchF : PyStr → FetchOut} {fs0 fs : FS} {sd : PyStr}
    {fetched : List PyStr} {date : PyStr} {fs' : FS}
    {fetched' : List PyStr} {e : Option PyErr}
    (hinv : FSInv fetchF fs0 fs sd)
    (heq : fetchStep fetchF fs fetched (save_csv_file sd date) date =
      (fs', fetched', e)) :
    FSInv fetchF fs0 fs' sd := by
  unfold fetchStep at heq
  split at heq
  · cases heq
    exact hinv
  · split at heq
    · next ls hfo =>
      cases heq
      exact FSInv_write hinv hfo
    · cases heq
      exact hinv
    · cases heq
      exact hinv

theorem processLines_mem :
    ∀ (lines : List PyStr) (dta : Data) (q : Nat) (pq : Period)
      (t v : PyStr),
    lookA (processLines dta lines).1 q = some pq → (t, v) ∈ pq →
    (∃ pq0 v0, lookA dta q = some pq0 ∧ (t, v0) ∈ pq0) ∨
      ∃ v0, (t, v0) ∈ (parseRecord lines).1 := by
  intro lines
  induction lines with
  | nil =>
    intro dta q pq t v hl hm
    exact Or.inl ⟨pq, v, hl, hm⟩
  | cons line rest ih =>
    intro dta q pq t v hl hm
    by_cases hs : (pyStrip line).take 2 = "20".toList
    · rcases hsp : splitComma (pyStrip line) with _ | ⟨t0, _ | ⟨v0, _ | ⟨w, ws⟩⟩⟩
      · have hstep : processLines dta (line :: rest) =
            (dta, some PyErr.valueError) := by
          simp only [processLines, if_pos hs, hsp]
        rw [hstep] at hl
        exact Or.inl ⟨pq, v, hl, hm⟩
      · have hstep : processLines dta (line :: rest) =
            (dta, some PyErr.valueError) := by
          simp only [processLines, if_pos hs, hsp]
        rw [hstep] at hl
        exact Or.inl ⟨pq, v, hl, hm⟩
      · have hpr : (parseRecord (line :: rest)).1 =
            (t0, v0) :: (parseRecord rest).1 := by
          simp only [parseRecord, if_pos hs, hsp]
        rcases hlk : lookA dta 0 with _ | p
        · have hstep : processLines dta (line :: rest) =
              (dta, some PyErr.keyError) := by
            simp only [processLines, if_pos hs, hsp, hlk]
          rw [hstep] at hl
          exact Or.inl ⟨pq, v, hl, hm⟩
        · have hstep : processLines dta (line :: rest) =
              processLines (setA dta 0 (setA p t0 v0)) rest := by
            simp only [processLines, if_pos hs, hsp, hlk]
          rw [hstep] at hl
          rcases ih _ q pq t v hl hm with ⟨pq0, w0, hl0, hm0⟩ | ⟨w0, hm0⟩
          · by_cases hq : (0 : Nat) = q
            · subst hq
              rw [lookA_setA] at hl0
              cases Option.some.inj hl0
              rcases mem_setA hm0 with ⟨w1, hw1⟩ | ht
              · exact Or.inl ⟨p, w1, hlk, hw1⟩
              · subst ht
                exact Or.inr ⟨v0, by
                  rw [hpr]; exact List.mem_cons_self _ _⟩
            · rw [lookA_setA_ne dta (setA p t0 v0)
                (fun hh => hq hh.symm)] at hl0
              exact Or.inl ⟨pq0, w0, hl0, hm0⟩
          · exact Or.inr ⟨w0, by
              rw [hpr]; exact List.mem_cons_of_mem _ hm0⟩
      · have hstep : processLines dta (line :: rest) =
            (dta, some PyErr.valueError) := by
          simp only [processLines, if_pos hs, hsp]
        rw [hstep] at hl
        exact Or.inl ⟨pq, v, hl, hm⟩
    · have hstep : processLines dta (line :: rest) =
          processLines dta rest := by
        simp only [processLines, if_neg hs]
      have hpr : parseRecord (line :: rest) = parseRecord rest := by
        simp only [parseRecord, if_neg hs]
      rw [hstep] at hl
      rcases ih _ q pq t v hl hm with h | ⟨w0, hm0⟩
      · exact Or.inl h
      · exact Or.inr ⟨w0, by rw [hpr]; exact hm0⟩

theorem add_lines_data (s : Store) (lines : List PyStr) :
    (add_data_from_csv_lines s lines).1.data =
      (processLines (createIfEmpty s).data lines).1 := by
  simp only [add_data_from_csv_lines]

theorem lookA_createIfEmpty {s : Store} {q : Nat} {pq : Period}
    (h : lookA (createIfEmpty s).data q = some pq) :
    lookA s.data q = some pq ∨ pq = [] := by
  unfold createIfEmpty at h
  split at h
  · by_cases h0 : (0 : Nat) = q
    · have h'' : lookA [((0 : Nat), ([] : Period))] q = some pq := h
      right
      rw [← h0] at h''
      simpa [lookA] using h''.symm
    · have h'' : lookA [((0 : Nat), ([] : Period))] q = some pq := h
      rw [show lookA [((0 : Nat), ([] : Period))] q = none by
        simp [lookA, h0]] at h''
      cases h''
  · exact Or.inl h

theorem add_csv_mem {s : Store} {fs : FS} {path : PyStr} {q : Nat}
    {pq : Period} {t v : PyStr}
    (h : lookA (add_data_from_csv s fs path).1.data q = some pq)
    (hm : (t, v) ∈ pq) :
    (∃ pq0 v0, lookA s.data q = some pq0 ∧ (t, v0) ∈ pq0) ∨
      ∃ lines, fsRead fs path = some lines ∧
        ∃ v0, (t, v0) ∈ (parseRecord lines).1 := by
  unfold add_data_from_csv at h
  split at h
  · have h' : lookA (createIfEmpty s).data q = some pq := h
    rcases lookA_createIfEmpty h' with h'' | h''
    · exact Or.inl ⟨pq, v, h'', hm⟩
    · rw [h''] at hm
      cases hm
  · next lines heq =>
    rw [add_lines_data] at h
    rcases processLines_mem lines _ q pq t v h hm with
      ⟨pq0, w0, hl0, hm0⟩ | ⟨w0, hm0⟩
    · rcases lookA_createIfEmpty hl0 with h'' | h''
      · exact Or.inl ⟨pq0, w0, h'', hm0⟩
      · rw [h''] at hm0
        cases hm0
    · exact Or.inr ⟨lines, heq, w0, hm0⟩

theorem formatDate_length (d : Date) : (formatDate d).length = 10 := by
  obtain ⟨y, m, dy⟩ := d
  rw [formatDate_mk]
  rfl

theorem datePart_of_good {d t hh : PyStr} (hlen : d.length = 10)
    (h : t = d ++ "T".toList ++ hh) : datePart t = d := by
  unfold datePart
  rw [h, List.append_assoc, ← hlen, List.take_left]

theorem runLoop_good (ds de : Date) (h1v : validDate ds) (h2v : validDate de)
    (fetchF : PyStr → FetchOut) (fs0 : FS) (sd : PyStr) (kid : Option PyStr)
    (hgoodF : ∀ d lines, fetchF d = FetchOut.wrote lines →
      goodArtifact d lines)
    (hgood0 : ∀ i, i < toOrdinal de - toOrdinal ds → ∀ lines,
      lookA fs0 (save_csv_file sd (formatDate (addDays ds i))) = some lines →
      goodArtifact (formatDate (addDays ds i)) lines) :
    ∀ (n k : Nat), k + n = toOrdinal de - toOrdinal ds →
    ∀ (fs : FS) (store : Store) (fetched : List PyStr) (st : RunState),
    FSInv fetchF fs0 fs sd →
    storeGood (inRange ds de) store →
    runLoop kid fetchF (formatDate de) sd (n + 1) fs store fetched
      (formatDate (addDays ds k)) = some st →
    st.err = none →
    storeGood (inRange ds de) st.store := by
  have hmax : toOrdinal de ≤ toOrdinal (⟨9999, 12, 31⟩ : Date) :=
    toOrdinal_le_max h2v
  intro n
  induction n with
  | zero =>
    intro k hk fs store fetched st hinv hgood hrun hok
    have hnlt : ¬ formatDate (addDays ds k) < formatDate de := by
      by_cases hcmp : toOrdinal ds ≤ toOrdinal de
      · obtain ⟨hv, ho⟩ := addDays_ordinal k ds h1v (by omega)
        rw [formatDate_lt_iff hv h2v, ho]
        omega
      · have hk0 : k = 0 := by omega
        subst hk0
        show ¬ formatDate ds < formatDate de
        rw [formatDate_lt_iff h1v h2v]
        omega
    rw [runLoop_exit _ _ _ _ _ _ _ _ _ hnlt] at hrun
    cases Option.some.inj hrun
    exact hgood
  | succ nn ih =>
    intro k hk fs store fetched st hinv hgood hrun hok
    obtain ⟨hADv, hADo⟩ := addDays_ordinal k ds h1v (by omega)
    have hstr : formatDate (addDays ds k) < formatDate de :=
      (formatDate_lt_iff hADv h2v).mpr (by omega)
    rw [runLoop_succ, if_pos hstr] at hrun
    split at hrun
    · next fs' fetched' e heqF =>
      cases Option.some.inj hrun
      simp at hok
    · next fs' fetched' heqF =>
      have hinv' : FSInv fetchF fs0 fs' sd := fetchStep_inv hinv heqF
      split at hrun
      · next store' e heqA =>
        cases Option.some.inj hrun
        simp at hok
      · next store' heqA =>
        have hgood' : storeGood (inRange ds de) store' := by
          intro q pq t v hl hm
          rcases add_csv_mem (by rw [heqA]; exact hl) hm with
            ⟨pq0, w0, hl0, hm0⟩ | ⟨lines, hread, w0, hm0⟩
          · exact hgood q pq0 t w0 hl0 hm0
          · have hread' : lookA fs' (save_csv_file sd
                (formatDate (addDays ds k))) = some lines := hread
            have hga : goodArtifact (formatDate (addDays ds k)) lines := by
              rcases hinv' (formatDate (addDays ds k)) lines hread' with
                hfs0l | hWl
              · exact hgood0 k (by omega) lines hfs0l
              · exact hgoodF _ lines hWl
            obtain ⟨hh, hhh⟩ := hga (t, w0) hm0
            have hhh' : t = formatDate (addDays ds k) ++ "T".toList ++ hh :=
              hhh
            refine ⟨addDays ds k, ?_, hADv, ?_, ?_⟩
            · rw [datePart_of_good (formatDate_length _) hhh']
              exact parseDate_formatDate hADv
            · omega
            · omega
        split at hrun
        · next d2 heqS =>
          have hS : shift_date (formatDate (addDays ds k)) 1 =
              some (formatDate (nextDay (addDays ds k))) :=
            shift_date_format hADv
          rw [heqS] at hS
          have hd2 : d2 = formatDate (nextDay (addDays ds k)) :=
            Option.some.inj hS
          subst hd2
          rw [← addDays_succ_comm] at hrun
          exact ih (k + 1) (by omega) fs' store' fetched' st hinv' hgood'
            hrun hok
        · cases Option.some.inj hrun
          simp at hok

/-- Claim C7: after a run over `[start_date, end_date)` in which every
loaded cache artifact is in this program's Day Fetcher format — each
artifact read for date `d`, whether written by the fetcher during the
run (which the fetcher guarantees by construction) or already present in
the initial cache (assumed), contains only timestamps of the form
`d ++ "T" ++ HH` — the assembled series store contains no timestamp
whose date part lies outside `[start_date, end_date)`: every stored
timestamp's first ten characters parse to a valid date `d2` with
`toOrdinal start_date ≤ toOrdinal d2 < toOrdinal end_date`. -/
theorem c7_range_containment (ds de : Date) (links : List (PyStr × PyStr))
    (fetchF : PyStr → FetchOut) (fs0 : FS) (kw sdir : PyStr) (st : RunState)
    (h1 : validDate ds) (h2 : validDate de)
    (hgoodF : ∀ d lines, fetchF d = FetchOut.wrote lines →
      goodArtifact d lines)
    (hgood0 : ∀ i, i < toOrdinal de - toOrdinal ds → ∀ lines,
      lookA fs0 (save_csv_file (effSaveDir sdir kw)
        (formatDate (addDays ds i))) = some lines →
      goodArtifact (formatDate (addDays ds i)) lines)
    (hrun : get_Social_Insight_data (toOrdinal de - toOrdinal ds + 1) links
      fetchF fs0 (formatDate ds) (formatDate de) kw sdir = some st)
    (hok : st.err = none) :
    storeGood (inRange ds de) st.store := by
  unfold get_Social_Insight_data at hrun
  exact runLoop_good ds de h1 h2 fetchF fs0 (effSaveDir sdir kw)
    (get_keyword_id links kw) hgoodF hgood0
    (toOrdinal de - toOrdinal ds) 0 (by omega)
    fs0 ⟨[], 0, 0⟩ [] st
    (FSInv_init fetchF fs0 (effSaveDir sdir kw))
    (fun q pq t v hl hm => by simp [lookA] at hl)
    hrun hok

/-- Witness for C7 at concrete inputs: a one-day run over
2024-01-01..2024-01-02 against a cache already holding a fetcher-format
artifact for 2024-01-01, with a remote that never yields a chart. -/
theorem c7_range_containment_witness :
    ∃ st, get_Social_Insight_data
        (toOrdinal (⟨2024, 1, 2⟩ : Date) -
          toOrdinal (⟨2024, 1, 1⟩ : Date) + 1)
        [] (fun _ => FetchOut.noChart)
        [(save_csv_file (effSaveDir "d".toList "k".toList)
            "2024-01-01".toList, ["2024-01-01T00,1".toList])]
        (formatDate ⟨2024, 1, 1⟩) (formatDate ⟨2024, 1, 2⟩)
        "k".toList "d".toList = some st ∧
      storeGood (inRange ⟨2024, 1, 1⟩ ⟨2024, 1, 2⟩) st.store := by
  refine ⟨_, rfl, c7_range_containment ⟨2024, 1, 1⟩ ⟨2024, 1, 2⟩ []
    (fun _ => FetchOut.noChart)
    [(save_csv_file (effSaveDir "d".toList "k".toList)
        "2024-01-01".toList, ["2024-01-01T00,1".toList])]
    "k".toList "d".toList _ (by decide) (by decide)
    (fun d lines h => nomatch h) ?_ rfl rfl⟩
  intro i hi lines hl
  have hdel : toOrdinal (⟨2024, 1, 2⟩ : Date) -
      toOrdinal (⟨2024, 1, 1⟩ : Date) = 1 := by decide
  rw [hdel] at hi
  have hi0 : i = 0 := by omega
  subst hi0
  have hE : lookA
      [(save_csv_file (effSaveDir "d".toList "k".toList)
          "2024-01-01".toList, ["2024-01-01T00,1".toList])]
      (save_csv_file (effSaveDir "d".toList "k".toList)
        (formatDate (addDays ⟨2024, 1, 1⟩ 0)))
      = some ["2024-01-01T00,1".toList] := by decide
  rw [hE] at hl
  have hl' : lines = ["2024-01-01T00,1".toList] :=
    (Option.some.inj hl).symm
  subst hl'
  intro tp htp
  have hP : (parseRecord ["2024-01-01T00,1".toList]).1 =
      [("2024-01-01T00".toList, "1".toList)] := by decide
  rw [hP] at htp
  have htp' : tp = ("2024-01-01T00".toList, "1".toList) := by
    simpa using htp
  subst htp'
  exact ⟨"00".toList, by decide⟩

end SID
